import Mathlib

set_option maxRecDepth 20000

/-!
Verification development for the placement decision core of the
kevin-wangzefeng/kubernetes scheduler fork.

The Go sources under `plugin/pkg/scheduler/algorithm` are embedded
shallowly: pods, nodes, taints, tolerations and affinity data become Lean
structures; the predicate and priority functions become executable Lean
functions translated statement by statement from the Go code.

The priority functions compute their final scores in IEEE-754 binary
floating point (`float32` in the older priority functions, `float64` in the
newer ones) before truncating to `int`.  To stay faithful to the source we
model binary floating-point rounding exactly: `roundFloat p q` rounds the
rational `q` to the nearest binary floating-point value with a `p`-bit
significand (ties to even), which is the IEEE-754 result of every
operation whose exact rational value is `q`, as long as no overflow or
underflow occurs (the scheduler's scores and counts stay far inside the
normal range of both formats, so overflow and subnormals never arise for
the values of interest).  `float32` is `roundFloat 24`, `float64` is
`roundFloat 53`; Go's `int(f)` conversion is truncation toward zero,
modelled by `truncInt`.
-/

/-- Base-2 logarithm on naturals with explicit fuel, so that it reduces by
kernel computation. -/
def log2Aux : ℕ → ℕ → ℕ
  | 0, _ => 0
  | fuel + 1, n => if n ≤ 1 then 0 else log2Aux fuel (n / 2) + 1

/-- Floor of the base-2 logarithm of a natural number (`natLog2 0 = 0`). -/
def natLog2 (n : ℕ) : ℕ :=
  log2Aux n n

/-- Integer powers of two as a rational, by kernel-computable recursion. -/
def qpow2 : ℤ → ℚ
  | .ofNat n => mkRat ((2 : ℤ) ^ n) 1
  | .negSucc n => mkRat 1 (2 ^ (n + 1))

/-- Round a rational to the nearest integer, ties to even
(IEEE-754 roundTiesToEven applied to a scaled significand). -/
def roundHalfEven (x : ℚ) : ℤ :=
  if x - (⌊x⌋ : ℚ) < 1/2 then ⌊x⌋
  else if 1/2 < x - (⌊x⌋ : ℚ) then ⌊x⌋ + 1
  else if Even ⌊x⌋ then ⌊x⌋ else ⌊x⌋ + 1

/-- First approximation of the binary exponent of a positive rational,
from the base-2 logarithms of numerator and denominator. -/
def qexpBase (q : ℚ) : ℤ :=
  (natLog2 q.num.toNat : ℤ) - (natLog2 q.den : ℤ)

/-- The binary exponent of a positive rational: the unique `e` with
`2 ^ e ≤ q < 2 ^ (e + 1)`. -/
def qexp (q : ℚ) : ℤ :=
  if q < qpow2 (qexpBase q) then qexpBase q - 1 else qexpBase q

/-- Round a rational to the nearest binary floating-point number carrying a
`p`-bit significand, ties to even.  The exponent range is unbounded, which
agrees with IEEE-754 binary32/binary64 whenever neither overflow nor
underflow occurs. -/
def roundFloat (p : ℕ) (q : ℚ) : ℚ :=
  if q = 0 then 0
  else if 0 < q then
    (roundHalfEven (q * qpow2 ((p : ℤ) - 1 - qexp q)) : ℚ) * qpow2 (qexp q - ((p : ℤ) - 1))
  else
    -((roundHalfEven ((-q) * qpow2 ((p : ℤ) - 1 - qexp (-q))) : ℚ) *
      qpow2 (qexp (-q) - ((p : ℤ) - 1)))

/-- Go's `int(f)` conversion on a float: truncation toward zero. -/
def truncInt (q : ℚ) : ℤ :=
  if 0 ≤ q then ⌊q⌋ else -⌊-q⌋

/-- The result of a Go `float64` operation or conversion whose exact
rational value is `q`. -/
def float64 (q : ℚ) : ℚ := roundFloat 53 q

/-- The result of a Go `float32` operation or conversion whose exact
rational value is `q`. -/
def float32 (q : ℚ) : ℚ := roundFloat 24 q

/-!
## Data model

Embeds the slices of `api.Pod`, `api.Node`, `api.Taint`, `api.Toleration`
and the affinity annotation structures used by the scheduler code under
`src/`.  Resource quantities (`resource.Quantity`) are represented by their
extracted integer values (`Cpu().MilliValue()`, `Memory().Value()`), and Go
`map[string]string` label maps by association lists with unique keys.
String-typed enums (`TaintEffect`, `TolerationOperator`) stay strings, as
in the Go source.  The `scheduler.alpha.kubernetes.io/affinity` and taints
annotations are carried in parsed form (`GetAffinityFromPodAnnotations` and
`GetTaintsFromNodeAnnotations` are not part of the sources under `src/`;
following the spec's serialization section they decode the annotation into
exactly these structures, so pods and nodes carry the decoded value).
-/

structure Container where
  milliCPU : ℤ := 0
  memory : ℤ := 0
  hostPorts : List ℤ := []
deriving DecidableEq

structure Toleration where
  key : String := ""
  value : String := ""
  operator : String := ""
  effect : String := ""
deriving DecidableEq

structure Taint where
  key : String := ""
  value : String := ""
  effect : String := ""
deriving DecidableEq

structure LabelSelectorRequirement where
  key : String := ""
  operator : String := ""
  values : List String := []
deriving DecidableEq

structure LabelSelector where
  matchExpressions : List LabelSelectorRequirement := []
deriving DecidableEq

structure PodAffinityTerm where
  labelSelector : Option LabelSelector := none
  namespaces : Option (List String) := none
  topologyKey : String := ""
deriving DecidableEq

structure WeightedPodAffinityTerm where
  weight : ℤ := 0
  podAffinityTerm : PodAffinityTerm := {}
deriving DecidableEq

structure PodAffinity where
  requiredDuringSchedulingIgnoredDuringExecution : List PodAffinityTerm := []
  preferredDuringSchedulingIgnoredDuringExecution : List WeightedPodAffinityTerm := []
deriving DecidableEq

structure Affinity where
  podAffinity : Option PodAffinity := none
  podAntiAffinity : Option PodAffinity := none
deriving DecidableEq

structure NodeSelectorRequirement where
  key : String := ""
  operator : String := ""
  values : List String := []
deriving DecidableEq

structure SoftNodeAffinityTerm where
  weight : ℤ := 0
  matchExpressions : List NodeSelectorRequirement := []
deriving DecidableEq

structure SpecAffinity where
  softNodeAffinity : Option (List SoftNodeAffinityTerm) := none
deriving DecidableEq

structure Pod where
  nsName : String := ""
  name : String := ""
  nodeName : String := ""
  labels : List (String × String) := []
  containers : List Container := []
  tolerations : List Toleration := []
  nodeSelector : List (String × String) := []
  affinitySelector : List (String × String) := []
  affinity : Affinity := {}
  specAffinity : Option SpecAffinity := none
deriving DecidableEq

structure Node where
  name : String := ""
  labels : List (String × String) := []
  taints : List Taint := []
  annotationTaints : List Taint := []
  capMilliCPU : ℤ := 0
  capMemory : ℤ := 0
  capPods : ℤ := 0
deriving DecidableEq

structure HostPriority where
  host : String
  score : ℤ
deriving DecidableEq

def TaintEffectNoSchedule : String := "NoSchedule"
def TaintEffectPreferNoSchedule : String := "PreferNoSchedule"
def TaintEffectNoScheduleNoAdmit : String := "NoScheduleNoAdmit"
def TaintEffectNoScheduleNoAdmitNoExecute : String := "NoScheduleNoAdmitNoExecute"
def TaintEffectNoExecute : String := "NoExecute"
def TolerationOpEqual : String := "Equal"
def TolerationOpExists : String := "Exists"

/-- Go `labels.Set.Has`: whether the label map carries the key. -/
def labelsHas (ls : List (String × String)) (k : String) : Bool :=
  ls.any (fun kv => kv.1 == k)

/-- Go `labels.Set.Get` / map access: value for the key, `""` if absent. -/
def labelsGet (ls : List (String × String)) (k : String) : String :=
  match ls.find? (fun kv => kv.1 == k) with
  | some kv => kv.2
  | none => ""

/-- Modelled from the spec: §4.1 selector algebra, requirement matching for
`unversioned.LabelSelectorAsSelector` (the selector package is not under
`src/`).  A requirement with operator In/NotIn/Exists/DoesNotExist holds
against a label map as described in the spec; `Matches` is the conjunction
over all requirements. -/
def reqMatches (ls : List (String × String)) (r : LabelSelectorRequirement) : Bool :=
  if r.operator == "In" then labelsHas ls r.key && r.values.contains (labelsGet ls r.key)
  else if r.operator == "NotIn" then !(labelsHas ls r.key && r.values.contains (labelsGet ls r.key))
  else if r.operator == "Exists" then labelsHas ls r.key
  else if r.operator == "DoesNotExist" then !(labelsHas ls r.key)
  else false

/-- Modelled from the spec: validity of a selector requirement's operator;
`LabelSelectorAsSelector` returns an error on any other operator. -/
def reqValid (r : LabelSelectorRequirement) : Bool :=
  r.operator == "In" || r.operator == "NotIn" ||
    r.operator == "Exists" || r.operator == "DoesNotExist"

/-- Modelled from the spec: whether `LabelSelectorAsSelector` succeeds.
A `nil` selector yields `labels.Nothing()` without error. -/
def selectorValid : Option LabelSelector → Bool
  | none => true
  | some s => s.matchExpressions.all reqValid

/-- Modelled from the spec: the selector built by `LabelSelectorAsSelector`
applied to a label map.  A `nil` selector (`labels.Nothing()`) matches no
labels; otherwise every requirement must hold. -/
def selectorMatches : Option LabelSelector → List (String × String) → Bool
  | none, _ => false
  | some s, ls => s.matchExpressions.all (reqMatches ls)

/-!
## Predicates

From `src/plugin/pkg/scheduler/algorithm/predicates/predicates.go`.
-/

/-- `StaticNodeInfo.GetNodeInfo` (predicates.go): linear search by name;
`none` models the "failed to find node" error. -/
def GetNodeInfo (nodes : List Node) (nodeID : String) : Option Node :=
  nodes.find? (fun n => n.name == nodeID)

/-- The toleration-against-taint match from the body of
`PodTolerationsMatchNodeTaints` (predicates.go lines 425-440): operator
`Equal` or empty compares key, value and effect; operator `Exists`
compares key and effect only. -/
def tolerationMatchesTaint (toleration : Toleration) (currTaint : Taint) : Bool :=
  if toleration.operator == TolerationOpEqual || toleration.operator == "" then
    toleration.key == currTaint.key && toleration.value == currTaint.value &&
      toleration.effect == currTaint.effect
  else if toleration.operator == TolerationOpExists then
    toleration.key == currTaint.key && toleration.effect == currTaint.effect
  else false

/-- `PodTolerationsMatchNodeTaints` (predicates.go lines 396-453).  The
Go `taintLoop` either finds a match and continues, or returns `false`; a
taint whose effect is neither one of the three NoSchedule variants nor
`PreferNoSchedule` falls through both branches and is skipped. -/
def PodTolerationsMatchNodeTaints (pod : Pod) (node : Node) : Bool :=
  if pod.tolerations.length == 0 then
    if node.taints.length == 0 then true else false
  else if node.taints.length == 0 then true
  else
    node.taints.all fun currTaint =>
      if currTaint.effect == TaintEffectNoSchedule ||
          currTaint.effect == TaintEffectNoScheduleNoAdmit ||
          currTaint.effect == TaintEffectNoScheduleNoAdmitNoExecute then
        pod.tolerations.any (fun toleration => tolerationMatchesTaint toleration currTaint)
      else true

/-- `getUsedPorts` (predicates.go lines 614-624): every `HostPort` declared
by any container of the given pods (the Go version collects them in a
`map[int]bool`; membership in this list coincides with map membership). -/
def getUsedPorts (pods : List Pod) : List ℤ :=
  pods.foldl (fun ports pod =>
    pod.containers.foldl (fun ports container => ports ++ container.hostPorts) ports) []

/-- `PodFitsHostPorts` (predicates.go lines 600-612). -/
def PodFitsHostPorts (pod : Pod) (existingPods : List Pod) : Bool :=
  (getUsedPorts [pod]).all fun wport =>
    if wport == 0 then true
    else !((getUsedPorts existingPods).contains wport)

/-- `getResourceRequest` (predicates.go lines 265-273): summed milli-CPU
and memory requests over the pod's containers. -/
def getResourceRequest (pod : Pod) : ℤ × ℤ :=
  pod.containers.foldl
    (fun acc container => (acc.1 + container.milliCPU, acc.2 + container.memory)) (0, 0)

/-- Accumulator of `CheckPodsExceedingFreeResources`. -/
structure CheckState where
  fitting : List Pod
  notFittingCPU : List Pod
  notFittingMemory : List Pod
  milliCPURequested : ℤ
  memoryRequested : ℤ

/-- One iteration of the loop in `CheckPodsExceedingFreeResources`
(predicates.go lines 280-298). -/
def checkPodStep (totalMilliCPU totalMemory : ℤ) (s : CheckState) (pod : Pod) : CheckState :=
  let podRequest := getResourceRequest pod
  let fitsCPU := totalMilliCPU = 0 ∨ totalMilliCPU - s.milliCPURequested ≥ podRequest.1
  let fitsMemory := totalMemory = 0 ∨ totalMemory - s.memoryRequested ≥ podRequest.2
  if ¬ fitsCPU then { s with notFittingCPU := s.notFittingCPU ++ [pod] }
  else if ¬ fitsMemory then { s with notFittingMemory := s.notFittingMemory ++ [pod] }
  else { s with
    milliCPURequested := s.milliCPURequested + podRequest.1
    memoryRequested := s.memoryRequested + podRequest.2
    fitting := s.fitting ++ [pod] }

/-- `CheckPodsExceedingFreeResources` (predicates.go lines 275-300):
returns `(fitting, notFittingCPU, notFittingMemory)`. -/
def CheckPodsExceedingFreeResources (pods : List Pod) (totalMilliCPU totalMemory : ℤ) :
    List Pod × List Pod × List Pod :=
  let final := pods.foldl (checkPodStep totalMilliCPU totalMemory) ⟨[], [], [], 0, 0⟩
  (final.fitting, final.notFittingCPU, final.notFittingMemory)

/-- `ResourceFit.PodFitsResources` (predicates.go lines 307-338).  The Go
function reports failure through the package-level `FailedResourceType`
variable; here that category is returned alongside the boolean, and the
outer `Option` models the node-lookup error return. -/
def PodFitsResources (info : List Node) (pod : Pod) (existingPods : List Pod)
    (node : String) : Option (Bool × Option String) :=
  match GetNodeInfo info node with
  | none => none
  | some nodeInfo =>
    if (existingPods.length : ℤ) + 1 > nodeInfo.capPods then
      some (false, some "PodExceedsMaxPodNumber")
    else
      let podRequest := getResourceRequest pod
      if podRequest.1 = 0 ∧ podRequest.2 = 0 then some (true, none)
      else
        let pods := existingPods ++ [pod]
        let res := CheckPodsExceedingFreeResources pods nodeInfo.capMilliCPU nodeInfo.capMemory
        if res.2.1.length > 0 then some (false, some "PodExceedsFreeCPU")
        else if res.2.2.length > 0 then some (false, some "PodExceedsFreeMemory")
        else some (true, none)

/-- Assignment into a Go `map[string]int` of counts (`counts[k] = v`). -/
def mapSet (m : String → ℤ) (k : String) (v : ℤ) : String → ℤ :=
  fun s => if s = k then v else m s

/-!
## TaintTolerationPriority

From `src/plugin/pkg/scheduler/algorithm/priorities/taint_toleration.go`.
The Go code reads the node's taints from `node.Spec.Taints`, embedded here
as `Node.taints`.
-/

/-- `getAllTolerationEffectPreferNoSchedule` (taint_toleration.go lines
69-76). -/
def getAllTolerationEffectPreferNoSchedule (tolerations : List Toleration) : List Toleration :=
  tolerations.filter (fun toleration => toleration.effect == TaintEffectPreferNoSchedule)

/-- The per-taint inner loop of `countIntolerableTaintsPreferNoSchedule`
(taint_toleration.go lines 45-60): the taint stays intolerable unless some
toleration has the same key and, under operator `Equal` or empty, the same
value (operator `Exists` needs no value match; any other operator never
matches). -/
def taintTolerable (tolerations : List Toleration) (taint : Taint) : Bool :=
  tolerations.any fun toleration =>
    toleration.key == taint.key &&
      (if toleration.operator == "" || toleration.operator == TolerationOpEqual then
        toleration.value == taint.value
       else if toleration.operator == TolerationOpExists then true
       else false)

/-- `countIntolerableTaintsPreferNoSchedule` (taint_toleration.go lines
40-66). -/
def countIntolerableTaintsPreferNoSchedule (taints : List Taint)
    (tolerations : List Toleration) : ℤ :=
  taints.foldl (fun intolerableTaints taint =>
    if taint.effect != TaintEffectPreferNoSchedule then intolerableTaints
    else if taintTolerable tolerations taint then intolerableTaints
    else intolerableTaints + 1) 0

/-- The first loop of `ComputeTaintTolerationPriority` (taint_toleration.go
lines 99-106): the per-node intolerable-taint counts and their running
maximum. -/
def taintCountsAndMax (pod : Pod) (nodes : List Node) : (String → ℤ) × ℤ :=
  let tolerationList := getAllTolerationEffectPreferNoSchedule pod.tolerations
  nodes.foldl (fun acc node =>
    let count := countIntolerableTaintsPreferNoSchedule node.taints tolerationList
    (mapSet acc.1 node.name count, if count > acc.2 then count else acc.2))
    ((fun _ => 0), 0)

/-- `TaintToleration.ComputeTaintTolerationPriority` (taint_toleration.go
lines 79-115).  The score is computed in `float64` exactly as in Go:
`fScore = (1.0 - float64(float64(counts[node.Name])/float64(maxCount))) * 10`
when `maxCount > 0`, else `10`, then truncated by `int(fScore)`. -/
def ComputeTaintTolerationPriority (pod : Pod) (nodes : List Node) : List HostPriority :=
  let cm := taintCountsAndMax pod nodes
  nodes.map fun node =>
    let fScore :=
      if cm.2 > 0 then
        float64 (float64 (1 - float64 (float64 ((cm.1 node.name : ℤ) : ℚ) /
          float64 ((cm.2 : ℤ) : ℚ))) * 10)
      else (10 : ℚ)
    ⟨node.name, truncInt fScore⟩

/-!
## NodeAffinityPriority

From `src/unnamed/part_005` (`CalculateNodeAffinityPriority`).
-/

/-- Modelled from the spec: requirement matching for
`api.NodeSelectorRequirementsAsSelector` (§4.1 selector algebra; the
selector package is not under `src/`).  Operators are
In/NotIn/Exists/DoesNotExist; any other operator makes the conversion
fail. -/
def nodeReqMatches (ls : List (String × String)) (r : NodeSelectorRequirement) : Bool :=
  if r.operator == "In" then labelsHas ls r.key && r.values.contains (labelsGet ls r.key)
  else if r.operator == "NotIn" then !(labelsHas ls r.key && r.values.contains (labelsGet ls r.key))
  else if r.operator == "Exists" then labelsHas ls r.key
  else if r.operator == "DoesNotExist" then !(labelsHas ls r.key)
  else false

/-- Modelled from the spec: whether `NodeSelectorRequirementsAsSelector`
succeeds (every operator is one of the four known ones). -/
def nodeReqsValid (reqs : List NodeSelectorRequirement) : Bool :=
  reqs.all fun r =>
    r.operator == "In" || r.operator == "NotIn" ||
      r.operator == "Exists" || r.operator == "DoesNotExist"

/-- The accumulation loops of `CalculateNodeAffinityPriority`
(part_005 lines 53-75): per-node tallies and their running maximum.
A term with weight `0` is skipped, and a term whose requirements do not
convert to a selector is skipped (`continue` on error). -/
def nodeAffinityCountsAndMax (pod : Pod) (nodes : List Node) : (String → ℤ) × ℤ :=
  match pod.specAffinity with
  | none => ((fun _ => 0), 0)
  | some sa =>
    match sa.softNodeAffinity with
    | none => ((fun _ => 0), 0)
    | some terms =>
      terms.foldl (fun acc softNodeAffinityTerm =>
        if softNodeAffinityTerm.weight = 0 then acc
        else if ¬ nodeReqsValid softNodeAffinityTerm.matchExpressions then acc
        else
          nodes.foldl (fun acc2 node =>
            let counts :=
              if softNodeAffinityTerm.matchExpressions.all (nodeReqMatches node.labels) then
                mapSet acc2.1 node.name (acc2.1 node.name + softNodeAffinityTerm.weight)
              else acc2.1
            (counts, if counts node.name > acc2.2 then counts node.name else acc2.2)) acc)
        ((fun _ => 0), 0)

/-- `NodeAffinity.CalculateNodeAffinityPriority` (part_005 lines 41-91).
Scores are computed in `float32`:
`fScore = 10 * (float32(counts[node.Name]) / float32(maxCount))` when
`maxCount > 0`, else `0`, then truncated by `int(fScore)`. -/
def CalculateNodeAffinityPriority (pod : Pod) (nodes : List Node) : List HostPriority :=
  let cm := nodeAffinityCountsAndMax pod nodes
  nodes.map fun node =>
    let fScore :=
      if cm.2 > 0 then
        float32 (10 * float32 (float32 ((cm.1 node.name : ℤ) : ℚ) / float32 ((cm.2 : ℤ) : ℚ)))
      else (0 : ℚ)
    ⟨node.name, truncInt fScore⟩

/-!
## ServiceAffinityPriority

Two retained variants: the canonical one from `src/unnamed/part_003`
(`ServiceAffinity.CalculateAffinityPriority`, default score 0), and the
`SelectorAffinity` variant from
`src/plugin/pkg/scheduler/algorithm/priorities/taintandtolerationspriority.go`
lines 212-260 (default score 10).
-/

/-- The tally loop of the canonical `CalculateAffinityPriority` (part_003
lines 53-68): for every already-placed pod in the candidate's namespace,
every label entry matching the candidate's `affinitySelector` increments
that pod's host tally. -/
def serviceAffinityCountsAndMax (pod : Pod) (allPods : List Pod) : (String → ℤ) × ℤ :=
  allPods.foldl (fun acc onePod =>
    if onePod.nsName ≠ pod.nsName then acc
    else
      onePod.labels.foldl (fun acc2 kv =>
        if labelsHas pod.affinitySelector kv.1 ∧ labelsGet pod.affinitySelector kv.1 = kv.2 then
          let v := acc2.1 onePod.nodeName + 1
          (mapSet acc2.1 onePod.nodeName v, if v > acc2.2 then v else acc2.2)
        else acc2) acc)
    ((fun _ => 0), 0)

/-- `ServiceAffinity.CalculateAffinityPriority` (part_003 lines 39-92,
the canonical "default 0" variant; the second copy in part_003 lines
132-190 is behaviourally identical).  Scores are `float32`:
`fScore = 10 * (float32(counts[minion.Name]) / float32(maxCount))` when
`maxCount > 0`, else `0`. -/
def CalculateAffinityPriority (pod : Pod) (allPods : List Pod) (minions : List Node) :
    List HostPriority :=
  let cm := serviceAffinityCountsAndMax pod allPods
  minions.map fun minion =>
    let fScore :=
      if cm.2 > 0 then
        float32 (10 * float32 (float32 ((cm.1 minion.name : ℤ) : ℚ) / float32 ((cm.2 : ℤ) : ℚ)))
      else (0 : ℚ)
    ⟨minion.name, truncInt fScore⟩

/-- Go `labels.SelectorFromSet(set).Matches(ls)`: every `(key, value)`
entry of the set must appear in the label map (an empty set matches
everything). -/
def setSelectorMatches (sel ls : List (String × String)) : Bool :=
  sel.all (fun kv => labelsHas ls kv.1 && labelsGet ls kv.1 == kv.2)

/-- The tally loop of `selectorAffinity.CalculateAffinityPriority`
(taintandtolerationspriority.go lines 218-239): note that it matches the
affinity selector against the **candidate** pod's own labels
(`pod.ObjectMeta.Labels`), not against `onePod`'s. -/
def selectorAffinityCountsAndMax (pod : Pod) (allPods : List Pod) : (String → ℤ) × ℤ :=
  allPods.foldl (fun acc onePod =>
    if onePod.nsName ≠ pod.nsName then acc
    else if setSelectorMatches pod.affinitySelector pod.labels then
      let v := acc.1 onePod.nodeName + 1
      (mapSet acc.1 onePod.nodeName v, if v > acc.2 then v else acc.2)
    else acc)
    ((fun _ => 0), 0)

/-- `selectorAffinity.CalculateAffinityPriority`
(taintandtolerationspriority.go lines 212-260): the non-canonical
`ServiceAffinityPriority` variant, whose default minion score is
`float32(10)` when there are no matches (`maxCount = 0`). -/
def SelectorAffinityCalculateAffinityPriority (pod : Pod) (allPods : List Pod)
    (minions : List Node) : List HostPriority :=
  let cm := selectorAffinityCountsAndMax pod allPods
  minions.map fun minion =>
    let fScore :=
      if cm.2 > 0 then
        float32 (10 * float32 (float32 ((cm.1 minion.name : ℤ) : ℚ) / float32 ((cm.2 : ℤ) : ℚ)))
      else (10 : ℚ)
    ⟨minion.name, truncInt fScore⟩

/-!
## InterPodAffinityPriority

From `src/unnamed/part_004` lines 179-353 (the variant exercised by the
repository's `TestInterPodAffinityPriority`), with the helpers from
`src/plugin/pkg/scheduler/algorithm/priorities/util/non_zero.go`.
`nodeNameToInfo` models the `map[string]*schedulercache.NodeInfo` view:
the already-placed pods of each host.
-/

/-- `HardPodAffinityImplicitWeight` (part_004 line 182). -/
def HardPodAffinityImplicitWeight : ℤ := 1

/-- `GetNamespacesFromPodAffinityTerm` (non_zero.go lines 94-104): a nil
namespace list means the given pod's own namespace, an empty list means
all namespaces, otherwise the listed namespace names. -/
def GetNamespacesFromPodAffinityTerm (pod : Pod) (podAffinityTerm : PodAffinityTerm) :
    List String :=
  match podAffinityTerm.namespaces with
  | none => [pod.nsName]
  | some l => l

/-- `FilterPodsByNameSpaces` (non_zero.go lines 56-67). -/
def FilterPodsByNameSpaces (names : List String) (pods : List Pod) : List Pod :=
  if pods.length = 0 ∨ names.length = 0 then pods
  else pods.filter (fun pod => names.contains pod.nsName)

/-- `IfNodeHasTopologyKey` (non_zero.go lines 71-78). -/
def IfNodeHasTopologyKey (node : Node) (topologyKey : String) : Bool :=
  if topologyKey.length = 0 then true
  else (labelsGet node.labels topologyKey).length > 0

/-- `countPodsThatMatchPodAffinityTerm` (part_004 lines 196-213).  The
`none` result models the `LabelSelectorAsSelector` error (an invalid
requirement operator). -/
def countPodsThatMatchPodAffinityTerm (pod : Pod) (podsOnNode : List Pod) (node : Node)
    (podAffinityTerm : PodAffinityTerm) : Option ℕ :=
  if ¬ selectorValid podAffinityTerm.labelSelector then none
  else
    let names := GetNamespacesFromPodAffinityTerm pod podAffinityTerm
    let filteredPods := FilterPodsByNameSpaces names podsOnNode
    some (filteredPods.countP fun filteredPod =>
      selectorMatches podAffinityTerm.labelSelector filteredPod.labels ∧
        IfNodeHasTopologyKey node podAffinityTerm.topologyKey = true)

/-- `TopologyCounts` increment (`tc[index] += weight` on the Go map,
keyed by label value). -/
def tcAdd (tc : List (String × ℤ)) (index : String) (weight : ℤ) : List (String × ℤ) :=
  if tc.any (fun kv => kv.1 == index) then
    tc.map (fun kv => if kv.1 == index then (kv.1, kv.2 + weight) else kv)
  else tc ++ [(index, weight)]

/-- `TopologyCounts.CountWeightByTopologykey` (part_004 lines 219-229):
an empty topology key counts the weight under every label value of the
node, otherwise under the node's value for the topology key (if any). -/
def CountWeightByTopologykey (tc : List (String × ℤ)) (node : Node) (weight : ℤ)
    (topologyKey : String) : List (String × ℤ) :=
  if topologyKey.length = 0 then
    node.labels.foldl (fun tc kv => tcAdd tc kv.2 weight) tc
  else if (labelsGet node.labels topologyKey).length > 0 then
    tcAdd tc (labelsGet node.labels topologyKey) weight
  else tc

/-- `TopologyCounts.CountWeightByPodMatchAffinityTerm` (part_004 lines
232-245).  Errors from `countPodsThatMatchPodAffinityTerm` leave the
counts unchanged (the Go call sites discard the error after no mutation
has happened). -/
def CountWeightByPodMatchAffinityTerm (tc : List (String × ℤ)) (pod : Pod)
    (podsOnNode : List Pod) (weight : ℤ) (podAffinityTerm : PodAffinityTerm)
    (node : Node) : List (String × ℤ) :=
  if weight = 0 then tc
  else
    match countPodsThatMatchPodAffinityTerm pod podsOnNode node podAffinityTerm with
    | none => tc
    | some podsMatchedCount =>
      if podsMatchedCount > 0 then
        CountWeightByTopologykey tc node (weight * (podsMatchedCount : ℤ))
          podAffinityTerm.topologyKey
      else tc

/-- The accumulation loops of `CalculateInterPodAffinityPriority`
(part_004 lines 261-317): forward weighted affinity and anti-affinity of
the candidate pod, then the reverse-direction hard (implicit weight 1)
and weighted terms of every pod already placed on the node. -/
def interPodTopologyCounts (pod : Pod) (nodeNameToInfo : String → List Pod)
    (nodes : List Node) : List (String × ℤ) :=
  nodes.foldl (fun tc node =>
    let existingPodsOnNode := nodeNameToInfo node.name
    let tc := match pod.affinity.podAffinity with
      | some pa => pa.preferredDuringSchedulingIgnoredDuringExecution.foldl
          (fun tc weightedTerm => CountWeightByPodMatchAffinityTerm tc pod
            existingPodsOnNode weightedTerm.weight weightedTerm.podAffinityTerm node) tc
      | none => tc
    let tc := match pod.affinity.podAntiAffinity with
      | some pa => pa.preferredDuringSchedulingIgnoredDuringExecution.foldl
          (fun tc weightedTerm => CountWeightByPodMatchAffinityTerm tc pod
            existingPodsOnNode (0 - weightedTerm.weight) weightedTerm.podAffinityTerm node) tc
      | none => tc
    existingPodsOnNode.foldl (fun tc ep =>
      let tc := match ep.affinity.podAffinity with
        | some pa => pa.requiredDuringSchedulingIgnoredDuringExecution.foldl
            (fun tc podAffinityTerm => CountWeightByPodMatchAffinityTerm tc ep [pod]
              HardPodAffinityImplicitWeight podAffinityTerm node) tc
        | none => tc
      let tc := match ep.affinity.podAffinity with
        | some pa => pa.preferredDuringSchedulingIgnoredDuringExecution.foldl
            (fun tc weightedTerm => CountWeightByPodMatchAffinityTerm tc ep [pod]
              weightedTerm.weight weightedTerm.podAffinityTerm node) tc
        | none => tc
      match ep.affinity.podAntiAffinity with
      | some pa => pa.preferredDuringSchedulingIgnoredDuringExecution.foldl
          (fun tc weightedTerm => CountWeightByPodMatchAffinityTerm tc ep [pod]
            (0 - weightedTerm.weight) weightedTerm.podAffinityTerm node) tc
      | none => tc) tc) []

/-- The conversion loop of `CalculateInterPodAffinityPriority` (part_004
lines 319-337): topology-value-keyed weights become node-name-keyed
counts, tracking the running maximum and minimum.  Returns
`(counts, maxCount, minCount)`. -/
def interPodCountsAndBounds (tc : List (String × ℤ)) (nodes : List Node) :
    (String → ℤ) × ℤ × ℤ :=
  tc.foldl (fun acc kv =>
    nodes.foldl (fun acc node =>
      node.labels.foldl (fun acc lkv =>
        if lkv.2 == kv.1 then
          let v := acc.1 node.name + kv.2
          (mapSet acc.1 node.name v,
            (if v > acc.2.1 then v else acc.2.1),
            (if v < acc.2.2 then v else acc.2.2))
        else acc) acc) acc)
    ((fun _ => 0), 0, 0)

/-- `InterPodAffinity.CalculateInterPodAffinityPriority` (part_004 lines
252-353).  Scores are `float64`:
`fScore = 10 * (float64(counts[node.Name]-minCount) / float64(maxCount-minCount))`
when `maxCount - minCount > 0`, else `0`, truncated by `int(fScore)`.
Pods carry their affinity annotation in parsed form, so the
`GetAffinityFromPodAnnotations` error path does not arise. -/
def CalculateInterPodAffinityPriority (pod : Pod) (nodeNameToInfo : String → List Pod)
    (nodes : List Node) : List HostPriority :=
  let tc := interPodTopologyCounts pod nodeNameToInfo nodes
  let cmm := interPodCountsAndBounds tc nodes
  nodes.map fun node =>
    let fScore :=
      if cmm.2.1 - cmm.2.2 > 0 then
        float64 (10 * float64 (float64 ((cmm.1 node.name - cmm.2.2 : ℤ) : ℚ) /
          float64 ((cmm.2.1 - cmm.2.2 : ℤ) : ℚ)))
      else (0 : ℚ)
    ⟨node.name, truncInt fScore⟩

/-!
## The taint editor (kubectl taint)

From `src/unnamed/part_007`.  `GetTaintsFromNodeAnnotations` (not under
`src/`) decodes the node's taints annotation; nodes carry that decoded
list as `annotationTaints`.
-/

/-- `validateNoTaintOverwrites` (part_007 lines 78-94): `true` when no
taint to add shares a key with a pre-existing taint (no error). -/
def validateNoTaintOverwrites (node : Node) (taints : List Taint) : Bool :=
  !(taints.any fun taint =>
      node.annotationTaints.any fun oldTaint => taint.key == oldTaint.key)

/-- `deleteTaintByKey` (part_007 lines 96-111): remove every taint with
the given key; error (`none`) when the key was not found. -/
def deleteTaintByKey (taints : List Taint) (key : String) : Option (List Taint) :=
  if taints.any (fun taint => taint.key == key) then
    some (taints.filter (fun taint => !(taint.key == key)))
  else none

/-- `reorganizeTaints` (part_007 lines 113-152): refuse key overwrites
unless `overwrite`; keep every added taint; append each pre-existing taint
whose key is not already present; then delete each key in `remove`,
collecting errors (on a deletion error the Go slice becomes `nil` and the
aggregate error is returned). -/
def reorganizeTaints (node : Node) (overwrite : Bool) (taints : List Taint)
    (remove : List String) : Option (List Taint) :=
  if ¬ overwrite ∧ ¬ validateNoTaintOverwrites node taints then none
  else
    let newTaints := node.annotationTaints.foldl (fun newTaints oldTaint =>
      if newTaints.any (fun taint => taint.key == oldTaint.key) then newTaints
      else newTaints ++ [oldTaint]) taints
    let final := remove.foldl (fun (acc : List Taint × Bool) taintToRemove =>
      match deleteTaintByKey acc.1 taintToRemove with
      | some l => (l, acc.2)
      | none => ([], true)) (newTaints, false)
    if final.2 then none else some final.1

/-- Go `strings.Split` on a single-character separator, over character
lists. -/
def splitChar (sep : Char) : List Char → List (List Char)
  | [] => [[]]
  | c :: rest =>
    if c = sep then [] :: splitChar sep rest
    else
      match splitChar sep rest with
      | [] => [[c]]
      | h :: t => (c :: h) :: t

/-- `parseTaints` (part_007 lines 154-188), over argument character lists.
The validators `IsQualifiedName` and `IsValidLabelValue` live in
`pkg/util/validation` (not under `src/`) and are passed as parameters.
A spec containing both `=` and `:` must split as `KEY=VALUE:EFFECT` with
effect `NoSchedule` or `PreferNoSchedule`; a spec ending in `-` removes
its key; anything else is an error (`none`). -/
def parseTaints (isQualifiedName isValidLabelValue : List Char → Bool) :
    List (List Char) → Option (List Taint × List String)
  | [] => some ([], [])
  | taintSpec :: rest =>
    if taintSpec.contains '=' ∧ taintSpec.contains ':' then
      match splitChar '=' taintSpec with
      | [k, v] =>
        if v.length = 0 ∨ ¬ isQualifiedName k then none
        else
          match splitChar ':' v with
          | [value, eff] =>
            if ¬ isValidLabelValue value then none
            else if String.mk eff == TaintEffectNoSchedule ∨
                String.mk eff == TaintEffectPreferNoSchedule then
              match parseTaints isQualifiedName isValidLabelValue rest with
              | some (taints, removes) =>
                some (⟨String.mk k, String.mk value, String.mk eff⟩ :: taints, removes)
              | none => none
            else none
          | _ => none
      | _ => none
    else if taintSpec.getLast? = some '-' then
      match parseTaints isQualifiedName isValidLabelValue rest with
      | some (taints, removes) => some (taints, String.mk taintSpec.dropLast :: removes)
      | none => none
    else none

/-!
## Concrete scenario fixtures

Inputs for the spec's literal scenarios (S1-S4) and for the
counterexamples established below.
-/

/-- S4: the hard pod-affinity term carried by the already-placed pod. -/
def s4Selector : LabelSelector :=
  { matchExpressions := [{ key := "security", operator := "In", values := ["S1"] }] }

def s4Term : PodAffinityTerm :=
  { labelSelector := some s4Selector, namespaces := none, topologyKey := "region" }

def s4PodAffinity : PodAffinity :=
  { requiredDuringSchedulingIgnoredDuringExecution := [s4Term],
    preferredDuringSchedulingIgnoredDuringExecution := [] }

def s4ExistingPod : Pod :=
  { name := "existing", nodeName := "m1",
    affinity := { podAffinity := some s4PodAffinity } }

def s4CandidatePod : Pod :=
  { name := "candidate", labels := [("security", "S1")] }

def s4Nodes : List Node :=
  [{ name := "m1", labels := [("region", "China")] },
   { name := "m2", labels := [("region", "India")] }]

def s4NodeNameToInfo : String → List Pod :=
  fun n => if n = "m1" then [s4ExistingPod] else []

/-- S1 node: capacity CPU 2000m, memory 2Gi, pods 10. -/
def s1Node : Node :=
  { name := "m1", capMilliCPU := 2000, capMemory := 2 * 1024 * 1024 * 1024, capPods := 10 }

def s1ExistingPod : Pod :=
  { name := "existing", nodeName := "m1",
    containers := [{ milliCPU := 1500, memory := 1024 * 1024 * 1024 }] }

def s1CandidatePod : Pod :=
  { name := "candidate", containers := [{ milliCPU := 600, memory := 500 * 1024 * 1024 }] }

/-- A candidate pod with no resource requests at all. -/
def zeroRequestPod : Pod := { name := "zero", containers := [{ milliCPU := 0, memory := 0 }] }

/-- An already-placed pod whose CPU request alone exceeds the S1 node's
capacity. -/
def hugeExistingPod : Pod :=
  { name := "huge", nodeName := "m1", containers := [{ milliCPU := 2500, memory := 0 }] }

/-- S2 node: taints `key1=v1:NoSchedule`, `key2=v2:PreferNoSchedule`. -/
def s2Node : Node :=
  { name := "n", taints :=
      [{ key := "key1", value := "v1", effect := "NoSchedule" },
       { key := "key2", value := "v2", effect := "PreferNoSchedule" }] }

def s2Pod : Pod :=
  { name := "p", tolerations :=
      [{ key := "key1", operator := "Equal", value := "v1", effect := "NoSchedule" }] }

/-- A node carrying only a `PreferNoSchedule` taint. -/
def preferOnlyNode : Node :=
  { name := "n", taints := [{ key := "key2", value := "v2", effect := "PreferNoSchedule" }] }

def noTolerationPod : Pod := { name := "p" }

/-- A node carrying only a `NoExecute` taint. -/
def noExecuteNode : Node :=
  { name := "n", taints := [{ key := "k", value := "v", effect := "NoExecute" }] }

/-- A pod with one toleration that matches nothing on `noExecuteNode`. -/
def unrelatedTolerationPod : Pod :=
  { name := "p", tolerations :=
      [{ key := "x", operator := "Equal", value := "y", effect := "NoSchedule" }] }

/-- S3 existing pod with hostPort 80. -/
def s3ExistingPod : Pod :=
  { name := "existing", nodeName := "m1", containers := [{ hostPorts := [80] }] }

def s3CandidatePod80 : Pod := { name := "c80", containers := [{ hostPorts := [80] }] }

def s3CandidatePod0 : Pod := { name := "c0", containers := [{ hostPorts := [0] }] }

/-- A pod declaring the same non-zero host port twice. -/
def duplicatePortPod : Pod := { name := "dup", containers := [{ hostPorts := [80, 80] }] }

/-- A node with `n` PreferNoSchedule taints, for the taint-priority
scoring counterexample. -/
def pnsTaints (n : ℕ) : List Taint :=
  (List.range n).map fun i =>
    { key := "key" ++ toString i, value := "v", effect := "PreferNoSchedule" }

def c4Nodes : List Node :=
  [{ name := "n4", taints := pnsTaints 4 }, { name := "n5", taints := pnsTaints 5 }]

/-- Service-affinity fixture: one placed pod in the candidate's namespace
whose labels match nothing in the candidate's affinity selector. -/
def c5CandidatePod : Pod := { name := "c", affinitySelector := [("a", "b")] }

def c5PlacedPod : Pod := { name := "p", nodeName := "m1" }

def c5Minions : List Node := [{ name := "m1" }]

/-- Taint-CLI fixture: a node whose annotation carries two taints with the
same key and different effects ((key, effect) pairs are unique per the
data model, keys are not). -/
def c10DupNode : Node :=
  { name := "dup", annotationTaints :=
      [{ key := "k", value := "v1", effect := "NoSchedule" },
       { key := "k", value := "v2", effect := "PreferNoSchedule" }] }

/-- Taint-CLI fixture with pairwise-distinct pre-existing keys. -/
def c10Node : Node :=
  { name := "wit", annotationTaints :=
      [{ key := "a", value := "1", effect := "NoSchedule" },
       { key := "c", value := "2", effect := "NoSchedule" }] }

/-!
## Derived quantities used in theorem statements
-/

/-- Total milli-CPU requested by a list of pods. -/
def sumCPU (pods : List Pod) : ℤ :=
  (pods.map fun p => (getResourceRequest p).1).sum

/-- Total memory requested by a list of pods. -/
def sumMem (pods : List Pod) : ℤ :=
  (pods.map fun p => (getResourceRequest p).2).sum

/-- The soft (preferred) node-affinity terms carried by a pod's
`scheduler.alpha.kubernetes.io/affinity` annotation, if any. -/
def podSoftTerms (pod : Pod) : List SoftNodeAffinityTerm :=
  match pod.specAffinity with
  | some sa => sa.softNodeAffinity.getD []
  | none => []


theorem qpow2_eq_zpow (e : ℤ) : qpow2 e = (2 : ℚ) ^ e := by
  cases e with
  | ofNat n =>
    show mkRat ((2 : ℤ) ^ n) 1 = _
    rw [Rat.mkRat_one, Int.ofNat_eq_natCast, zpow_natCast]
    push_cast
    ring
  | negSucc n =>
    show mkRat 1 (2 ^ (n + 1)) = _
    rw [Rat.mkRat_eq_divInt, Rat.divInt_eq_div, zpow_negSucc]
    push_cast
    rw [one_div]

theorem log2Aux_eq_log (fuel n : ℕ) (h : n ≤ fuel) : log2Aux fuel n = Nat.log 2 n := by
  induction fuel generalizing n with
  | zero =>
    have hn : n = 0 := by omega
    subst hn
    simp [log2Aux]
  | succ fuel ih =>
    by_cases h1 : n ≤ 1
    · have hlog : Nat.log 2 n = 0 := by
        apply Nat.log_eq_zero_iff.2
        omega
      simp [log2Aux, h1, hlog]
    · have hdiv : Nat.log 2 (n / 2) = Nat.log 2 n - 1 := Nat.log_div_base 2 n
      have hpos : 0 < Nat.log 2 n := Nat.log_pos (by norm_num) (by omega)
      have hunf : log2Aux (fuel + 1) n = log2Aux fuel (n / 2) + 1 := by
        simp [log2Aux, h1]
      rw [hunf, ih _ (by omega), hdiv]
      omega

theorem natLog2_eq_log (n : ℕ) : natLog2 n = Nat.log 2 n :=
  log2Aux_eq_log n n le_rfl

theorem roundHalfEven_ge_floor (x : ℚ) : ⌊x⌋ ≤ roundHalfEven x := by
  unfold roundHalfEven
  split_ifs <;> omega

theorem roundHalfEven_le_floor_add_one (x : ℚ) : roundHalfEven x ≤ ⌊x⌋ + 1 := by
  unfold roundHalfEven
  split_ifs <;> omega

theorem roundHalfEven_intCast (n : ℤ) : roundHalfEven (n : ℚ) = n := by
  unfold roundHalfEven
  rw [Int.floor_intCast]
  have h2 : (n : ℚ) - (n : ℚ) = 0 := by ring
  rw [h2]
  norm_num

theorem roundHalfEven_mono {x y : ℚ} (h : x ≤ y) :
    roundHalfEven x ≤ roundHalfEven y := by
  rcases lt_or_eq_of_le (Int.floor_mono h) with hf | hf
  · calc roundHalfEven x ≤ ⌊x⌋ + 1 := roundHalfEven_le_floor_add_one x
    _ ≤ ⌊y⌋ := by omega
    _ ≤ roundHalfEven y := roundHalfEven_ge_floor y
  · have hr : x - (⌊x⌋ : ℚ) ≤ y - (⌊y⌋ : ℚ) := by
      rw [hf]; linarith
    unfold roundHalfEven
    rw [hf]
    split_ifs <;> first | omega | (exfalso; linarith)

theorem qexp_correct {q : ℚ} (hq : 0 < q) :
    (2 : ℚ) ^ qexp q ≤ q ∧ q < (2 : ℚ) ^ (qexp q + 1) := by
  have hnum : 0 < q.num := Rat.num_pos.2 hq
  have hden : 0 < q.den := q.pos
  have ha0 : q.num.toNat ≠ 0 := by omega
  have hb0 : q.den ≠ 0 := by omega
  have hacast : ((q.num.toNat : ℤ) : ℚ) = (q.num : ℚ) := by
    rw [Int.toNat_of_nonneg hnum.le]
  have hq_eq : q = ((q.num.toNat : ℕ) : ℚ) / ((q.den : ℕ) : ℚ) := by
    have h1 : ((q.num.toNat : ℕ) : ℚ) = (q.num : ℚ) := by exact_mod_cast hacast
    rw [h1, Rat.num_div_den]
  have hbpos : (0 : ℚ) < ((q.den : ℕ) : ℚ) := by exact_mod_cast hden
  have hapos : (0 : ℚ) < ((q.num.toNat : ℕ) : ℚ) := by
    have : 0 < q.num.toNat := by omega
    exact_mod_cast this
  set α := Nat.log 2 q.num.toNat with hα
  set β := Nat.log 2 q.den with hβ
  have pa1 : ((2 : ℚ)) ^ (α : ℕ) ≤ ((q.num.toNat : ℕ) : ℚ) := by
    exact_mod_cast Nat.pow_log_le_self 2 ha0
  have pa2 : ((q.num.toNat : ℕ) : ℚ) < (2 : ℚ) ^ (α + 1 : ℕ) := by
    exact_mod_cast Nat.lt_pow_succ_log_self (by norm_num) q.num.toNat
  have pb1 : ((2 : ℚ)) ^ (β : ℕ) ≤ ((q.den : ℕ) : ℚ) := by
    exact_mod_cast Nat.pow_log_le_self 2 hb0
  have pb2 : ((q.den : ℕ) : ℚ) < (2 : ℚ) ^ (β + 1 : ℕ) := by
    exact_mod_cast Nat.lt_pow_succ_log_self (by norm_num) q.den
  have h2 : (2 : ℚ) ≠ 0 := two_ne_zero
  have hzn : ∀ n : ℕ, (2 : ℚ) ^ (n : ℤ) = (2 : ℚ) ^ n := fun n => zpow_natCast 2 n
  have hU : q < (2 : ℚ) ^ ((α : ℤ) - β + 1) := by
    have key : ((q.num.toNat : ℕ) : ℚ) / ((q.den : ℕ) : ℚ) <
        (2 : ℚ) ^ (α + 1 : ℕ) / (2 : ℚ) ^ (β : ℕ) := by
      rw [div_lt_div_iff hbpos (by positivity)]
      calc ((q.num.toNat : ℕ) : ℚ) * (2 : ℚ) ^ (β : ℕ)
          < (2 : ℚ) ^ (α + 1 : ℕ) * (2 : ℚ) ^ (β : ℕ) := by
            apply mul_lt_mul_of_pos_right pa2 (by positivity)
        _ ≤ (2 : ℚ) ^ (α + 1 : ℕ) * ((q.den : ℕ) : ℚ) := by
            apply mul_le_mul_of_nonneg_left pb1 (by positivity)
    rw [← hq_eq] at key
    calc q < (2 : ℚ) ^ (α + 1 : ℕ) / (2 : ℚ) ^ (β : ℕ) := key
      _ = (2 : ℚ) ^ ((α : ℤ) - β + 1) := by
          rw [← hzn (α + 1), ← hzn β, ← zpow_sub₀ h2]
          congr 1
          push_cast
          ring
  have hL : (2 : ℚ) ^ ((α : ℤ) - β - 1) < q := by
    have key : (2 : ℚ) ^ (α : ℕ) / (2 : ℚ) ^ (β + 1 : ℕ) <
        ((q.num.toNat : ℕ) : ℚ) / ((q.den : ℕ) : ℚ) := by
      rw [div_lt_div_iff (by positivity) hbpos]
      calc (2 : ℚ) ^ (α : ℕ) * ((q.den : ℕ) : ℚ)
          ≤ ((q.num.toNat : ℕ) : ℚ) * ((q.den : ℕ) : ℚ) := by
            apply mul_le_mul_of_nonneg_right pa1 (by positivity)
        _ < ((q.num.toNat : ℕ) : ℚ) * (2 : ℚ) ^ (β + 1 : ℕ) := by
            apply mul_lt_mul_of_pos_left pb2 hapos
    rw [← hq_eq] at key
    calc (2 : ℚ) ^ ((α : ℤ) - β - 1)
        = (2 : ℚ) ^ (α : ℕ) / (2 : ℚ) ^ (β + 1 : ℕ) := by
          rw [← hzn α, ← hzn (β + 1), ← zpow_sub₀ h2]
          congr 1
          push_cast
          ring
      _ < q := key
  have hbase : qexpBase q = (α : ℤ) - (β : ℤ) := by
    simp [qexpBase, natLog2_eq_log, hα, hβ]
  unfold qexp
  rw [qpow2_eq_zpow, hbase]
  by_cases hcase : q < (2 : ℚ) ^ ((α : ℤ) - β)
  · rw [if_pos hcase]
    constructor
    · have : (α : ℤ) - β - 1 ≤ (α : ℤ) - β - 1 := le_rfl
      exact hL.le
    · have heq : (α : ℤ) - β - 1 + 1 = (α : ℤ) - β := by ring
      rw [heq]
      exact hcase
  · rw [if_neg hcase]
    exact ⟨le_of_not_lt hcase, hU⟩

/-- The significand-scaled value lies in `[2 ^ (p - 1), 2 ^ p)`. -/
theorem scaled_bounds (p : ℕ) {q : ℚ} (hq : 0 < q) :
    (2 : ℚ) ^ ((p : ℤ) - 1) ≤ q * (2 : ℚ) ^ ((p : ℤ) - 1 - qexp q) ∧
      q * (2 : ℚ) ^ ((p : ℤ) - 1 - qexp q) < (2 : ℚ) ^ (p : ℤ) := by
  obtain ⟨hlo, hhi⟩ := qexp_correct hq
  have hpow : (0 : ℚ) < (2 : ℚ) ^ ((p : ℤ) - 1 - qexp q) := by positivity
  constructor
  · calc (2 : ℚ) ^ ((p : ℤ) - 1)
        = (2 : ℚ) ^ (qexp q) * (2 : ℚ) ^ ((p : ℤ) - 1 - qexp q) := by
          rw [← zpow_add₀ (two_ne_zero : (2:ℚ) ≠ 0)]
          congr 1
          ring
      _ ≤ q * (2 : ℚ) ^ ((p : ℤ) - 1 - qexp q) :=
          mul_le_mul_of_nonneg_right hlo hpow.le
  · calc q * (2 : ℚ) ^ ((p : ℤ) - 1 - qexp q)
        < (2 : ℚ) ^ (qexp q + 1) * (2 : ℚ) ^ ((p : ℤ) - 1 - qexp q) :=
          mul_lt_mul_of_pos_right hhi hpow
      _ = (2 : ℚ) ^ (p : ℤ) := by
          rw [← zpow_add₀ (two_ne_zero : (2:ℚ) ≠ 0)]
          congr 1
          ring

/-- Unfolding of `roundFloat` at a positive argument, with powers of two in
`zpow` form. -/
theorem roundFloat_pos_def (p : ℕ) {q : ℚ} (hq : 0 < q) :
    roundFloat p q =
      (roundHalfEven (q * (2 : ℚ) ^ ((p : ℤ) - 1 - qexp q)) : ℚ) *
        (2 : ℚ) ^ (qexp q - ((p : ℤ) - 1)) := by
  unfold roundFloat
  rw [if_neg (ne_of_gt hq), if_pos hq, qpow2_eq_zpow, qpow2_eq_zpow]

theorem roundFloat_zero (p : ℕ) : roundFloat p 0 = 0 := by
  unfold roundFloat
  rw [if_pos rfl]

theorem roundFloat_nonneg (p : ℕ) {q : ℚ} (hq : 0 ≤ q) : 0 ≤ roundFloat p q := by
  rcases eq_or_lt_of_le hq with h | h
  · rw [← h, roundFloat_zero]
  · rw [roundFloat_pos_def p h]
    have hfl : (0 : ℤ) ≤ roundHalfEven (q * (2 : ℚ) ^ ((p : ℤ) - 1 - qexp q)) := by
      have : (0 : ℤ) ≤ ⌊q * (2 : ℚ) ^ ((p : ℤ) - 1 - qexp q)⌋ :=
        Int.floor_nonneg.2 (by positivity)
      calc (0 : ℤ) ≤ ⌊q * (2 : ℚ) ^ ((p : ℤ) - 1 - qexp q)⌋ := this
        _ ≤ _ := roundHalfEven_ge_floor _
    have h2 : (0 : ℚ) ≤ (2 : ℚ) ^ (qexp q - ((p : ℤ) - 1)) := by positivity
    exact mul_nonneg (by exact_mod_cast hfl) h2

theorem roundFloat_pos (p : ℕ) (hp : 1 ≤ p) {q : ℚ} (hq : 0 < q) :
    0 < roundFloat p q := by
  rw [roundFloat_pos_def p hq]
  have hx : (2 : ℚ) ^ ((p : ℤ) - 1) ≤ q * (2 : ℚ) ^ ((p : ℤ) - 1 - qexp q) :=
    (scaled_bounds p hq).1
  have hxpos : (0 : ℚ) < q * (2 : ℚ) ^ ((p : ℤ) - 1 - qexp q) := by positivity
  have hfl : (1 : ℤ) ≤ roundHalfEven (q * (2 : ℚ) ^ ((p : ℤ) - 1 - qexp q)) := by
    have hone : (1 : ℚ) ≤ (2 : ℚ) ^ ((p : ℤ) - 1) := by
      apply one_le_zpow₀ (by norm_num)
      omega
    have h1 : (1 : ℤ) ≤ ⌊q * (2 : ℚ) ^ ((p : ℤ) - 1 - qexp q)⌋ := by
      apply Int.le_floor.2
      calc ((1 : ℤ) : ℚ) = 1 := by norm_num
        _ ≤ (2 : ℚ) ^ ((p : ℤ) - 1) := hone
        _ ≤ _ := hx
    calc (1 : ℤ) ≤ ⌊q * (2 : ℚ) ^ ((p : ℤ) - 1 - qexp q)⌋ := h1
      _ ≤ _ := roundHalfEven_ge_floor _
  have h2 : (0 : ℚ) < (2 : ℚ) ^ (qexp q - ((p : ℤ) - 1)) := by positivity
  have : (0 : ℚ) < (roundHalfEven (q * (2 : ℚ) ^ ((p : ℤ) - 1 - qexp q)) : ℚ) := by
    exact_mod_cast lt_of_lt_of_le zero_lt_one hfl
  exact mul_pos this h2

/-- The rounded value never escapes the binade above: it is at most
`2 ^ (qexp q + 1)`. -/
theorem roundFloat_le_pow (p : ℕ) {q : ℚ} (hq : 0 < q) :
    roundFloat p q ≤ (2 : ℚ) ^ (qexp q + 1) := by
  rw [roundFloat_pos_def p hq]
  have hx : q * (2 : ℚ) ^ ((p : ℤ) - 1 - qexp q) < (2 : ℚ) ^ (p : ℤ) :=
    (scaled_bounds p hq).2
  have hfl : roundHalfEven (q * (2 : ℚ) ^ ((p : ℤ) - 1 - qexp q)) ≤ 2 ^ p := by
    have h1 : ⌊q * (2 : ℚ) ^ ((p : ℤ) - 1 - qexp q)⌋ < 2 ^ p := by
      apply Int.floor_lt.2
      calc q * (2 : ℚ) ^ ((p : ℤ) - 1 - qexp q) < (2 : ℚ) ^ (p : ℤ) := hx
        _ = (((2 : ℤ) ^ p : ℤ) : ℚ) := by
          push_cast
          rw [zpow_natCast]
    calc roundHalfEven (q * (2 : ℚ) ^ ((p : ℤ) - 1 - qexp q))
        ≤ ⌊q * (2 : ℚ) ^ ((p : ℤ) - 1 - qexp q)⌋ + 1 := roundHalfEven_le_floor_add_one _
      _ ≤ 2 ^ p := by omega
  have h2 : (0 : ℚ) ≤ (2 : ℚ) ^ (qexp q - ((p : ℤ) - 1)) := by positivity
  calc (roundHalfEven (q * (2 : ℚ) ^ ((p : ℤ) - 1 - qexp q)) : ℚ) *
        (2 : ℚ) ^ (qexp q - ((p : ℤ) - 1))
      ≤ ((2 : ℚ) ^ (p : ℤ)) * (2 : ℚ) ^ (qexp q - ((p : ℤ) - 1)) := by
        apply mul_le_mul_of_nonneg_right _ h2
        calc (roundHalfEven (q * (2 : ℚ) ^ ((p : ℤ) - 1 - qexp q)) : ℚ)
            ≤ (((2 : ℤ) ^ p : ℤ) : ℚ) := by exact_mod_cast hfl
          _ = (2 : ℚ) ^ (p : ℤ) := by
            push_cast
            rw [zpow_natCast]
    _ = (2 : ℚ) ^ (qexp q + 1) := by
        rw [← zpow_add₀ (two_ne_zero : (2:ℚ) ≠ 0)]
        congr 1
        ring

/-- The rounded value never escapes the binade below: it is at least
`2 ^ qexp q`. -/
theorem pow_le_roundFloat (p : ℕ) (hp : 1 ≤ p) {q : ℚ} (hq : 0 < q) :
    (2 : ℚ) ^ qexp q ≤ roundFloat p q := by
  rw [roundFloat_pos_def p hq]
  have hx : (2 : ℚ) ^ ((p : ℤ) - 1) ≤ q * (2 : ℚ) ^ ((p : ℤ) - 1 - qexp q) :=
    (scaled_bounds p hq).1
  have hcast : (((2 : ℤ) ^ (p - 1) : ℤ) : ℚ) = (2 : ℚ) ^ ((p : ℤ) - 1) := by
    have he : (p : ℤ) - 1 = ((p - 1 : ℕ) : ℤ) := by omega
    rw [he, zpow_natCast]
    push_cast
    ring
  have h1 : ((2 : ℤ) ^ (p - 1)) ≤ ⌊q * (2 : ℚ) ^ ((p : ℤ) - 1 - qexp q)⌋ :=
    Int.le_floor.2 (by rw [hcast]; exact hx)
  have hfl : ((2 : ℤ) ^ (p - 1)) ≤ roundHalfEven (q * (2 : ℚ) ^ ((p : ℤ) - 1 - qexp q)) :=
    le_trans h1 (roundHalfEven_ge_floor _)
  have hflq : (2 : ℚ) ^ ((p : ℤ) - 1) ≤
      (roundHalfEven (q * (2 : ℚ) ^ ((p : ℤ) - 1 - qexp q)) : ℚ) := by
    rw [← hcast]
    exact_mod_cast hfl
  have h2 : (0 : ℚ) ≤ (2 : ℚ) ^ (qexp q - ((p : ℤ) - 1)) := by positivity
  calc (2 : ℚ) ^ qexp q
      = (2 : ℚ) ^ ((p : ℤ) - 1) * (2 : ℚ) ^ (qexp q - ((p : ℤ) - 1)) := by
        rw [← zpow_add₀ (two_ne_zero : (2:ℚ) ≠ 0)]
        congr 1
        ring
    _ ≤ _ := mul_le_mul_of_nonneg_right hflq h2

theorem qexp_mono {x y : ℚ} (hx : 0 < x) (hxy : x ≤ y) : qexp x ≤ qexp y := by
  have hy : 0 < y := lt_of_lt_of_le hx hxy
  obtain ⟨hx1, _⟩ := qexp_correct hx
  obtain ⟨_, hy2⟩ := qexp_correct hy
  have : (2 : ℚ) ^ qexp x < (2 : ℚ) ^ (qexp y + 1) :=
    lt_of_le_of_lt (le_trans hx1 hxy) hy2
  have := (zpow_lt_zpow_iff_right₀ (by norm_num : (1:ℚ) < 2)).1 this
  omega

theorem roundFloat_mono (p : ℕ) (hp : 1 ≤ p) {x y : ℚ} (hx : 0 ≤ x) (hxy : x ≤ y) :
    roundFloat p x ≤ roundFloat p y := by
  rcases eq_or_lt_of_le hx with h0 | h0
  · rw [← h0, roundFloat_zero]
    exact roundFloat_nonneg p (le_trans hx hxy)
  · have hy : 0 < y := lt_of_lt_of_le h0 hxy
    have hee : qexp x ≤ qexp y := qexp_mono h0 hxy
    rcases eq_or_lt_of_le hee with he | he
    · rw [roundFloat_pos_def p h0, roundFloat_pos_def p hy, ← he]
      apply mul_le_mul_of_nonneg_right _ (by positivity)
      have : roundHalfEven (x * (2 : ℚ) ^ ((p : ℤ) - 1 - qexp x)) ≤
          roundHalfEven (y * (2 : ℚ) ^ ((p : ℤ) - 1 - qexp x)) := by
        apply roundHalfEven_mono
        apply mul_le_mul_of_nonneg_right hxy (by positivity)
      exact_mod_cast this
    · calc roundFloat p x ≤ (2 : ℚ) ^ (qexp x + 1) := roundFloat_le_pow p h0
        _ ≤ (2 : ℚ) ^ qexp y := by
          apply zpow_le_zpow_right₀ (by norm_num : (1:ℚ) ≤ 2)
          omega
        _ ≤ roundFloat p y := pow_le_roundFloat p hp hy

theorem roundFloat_one (p : ℕ) (hp : 1 ≤ p) : roundFloat p (1 : ℚ) = 1 := by
  have h0 : qexp (1 : ℚ) = 0 := of_decide_eq_true (by with_unfolding_all rfl)
  rw [roundFloat_pos_def p one_pos, h0]
  have hx : (1 : ℚ) * (2 : ℚ) ^ ((p : ℤ) - 1 - 0) = (((2 : ℤ) ^ (p - 1) : ℤ) : ℚ) := by
    push_cast
    rw [one_mul, ← zpow_natCast]
    congr 1
    omega
  rw [hx, roundHalfEven_intCast]
  push_cast
  rw [← zpow_natCast (2 : ℚ) (p - 1), ← zpow_add₀ (two_ne_zero : (2:ℚ) ≠ 0)]
  have : ((p : ℤ) - 1 : ℤ).toNat = p - 1 := by omega
  have hexp : ((p - 1 : ℕ) : ℤ) + (0 - ((p : ℤ) - 1)) = 0 := by omega
  rw [hexp]
  norm_num

theorem roundFloat_ten (p : ℕ) (hp : 4 ≤ p) : roundFloat p (10 : ℚ) = 10 := by
  have h0 : qexp (10 : ℚ) = 3 := of_decide_eq_true (by with_unfolding_all rfl)
  rw [roundFloat_pos_def p (by norm_num), h0]
  have hx : (10 : ℚ) * (2 : ℚ) ^ ((p : ℤ) - 1 - 3) = ((10 * (2 : ℤ) ^ (p - 4) : ℤ) : ℚ) := by
    have he : (p : ℤ) - 1 - 3 = ((p - 4 : ℕ) : ℤ) := by omega
    rw [he, zpow_natCast]
    push_cast
    ring
  rw [hx, roundHalfEven_intCast]
  push_cast
  rw [← zpow_natCast (2 : ℚ) (p - 4), mul_assoc, ← zpow_add₀ (two_ne_zero : (2:ℚ) ≠ 0)]
  have hexp : ((p - 4 : ℕ) : ℤ) + (3 - ((p : ℤ) - 1)) = 0 := by omega
  rw [hexp]
  norm_num

theorem roundFloat_le_one (p : ℕ) (hp : 1 ≤ p) {q : ℚ} (h0 : 0 ≤ q) (h1 : q ≤ 1) :
    roundFloat p q ≤ 1 := by
  calc roundFloat p q ≤ roundFloat p 1 := roundFloat_mono p hp h0 h1
    _ = 1 := roundFloat_one p hp

theorem roundFloat_le_ten (p : ℕ) (hp : 4 ≤ p) {q : ℚ} (h0 : 0 ≤ q) (h1 : q ≤ 10) :
    roundFloat p q ≤ 10 := by
  calc roundFloat p q ≤ roundFloat p 10 := roundFloat_mono p (by omega) h0 h1
    _ = 10 := roundFloat_ten p hp

theorem truncInt_bounds {q : ℚ} (h0 : 0 ≤ q) (h1 : q ≤ 10) :
    0 ≤ truncInt q ∧ truncInt q ≤ 10 := by
  unfold truncInt
  rw [if_pos h0]
  constructor
  · exact Int.floor_nonneg.2 h0
  · have : (⌊q⌋ : ℚ) ≤ 10 := le_trans (Int.floor_le q) h1
    exact_mod_cast this

/-- The rounded quotient of two rounded nonnegative integers is in `[0, 1]`
whenever the numerator is at most the denominator. -/
theorem floatDiv_unit (p : ℕ) (hp : 1 ≤ p) {x y : ℤ} (hx : 0 ≤ x) (hxy : x ≤ y)
    (hy : 0 < y) :
    0 ≤ roundFloat p (roundFloat p (x : ℚ) / roundFloat p (y : ℚ)) ∧
      roundFloat p (roundFloat p (x : ℚ) / roundFloat p (y : ℚ)) ≤ 1 := by
  have hxq : (0 : ℚ) ≤ (x : ℚ) := by exact_mod_cast hx
  have hyq : (0 : ℚ) < (y : ℚ) := by exact_mod_cast hy
  have hxyq : (x : ℚ) ≤ (y : ℚ) := by exact_mod_cast hxy
  have hfy : 0 < roundFloat p (y : ℚ) := roundFloat_pos p hp hyq
  have hfx : 0 ≤ roundFloat p (x : ℚ) := roundFloat_nonneg p hxq
  have hfxy : roundFloat p (x : ℚ) ≤ roundFloat p (y : ℚ) := roundFloat_mono p hp hxq hxyq
  have hd0 : 0 ≤ roundFloat p (x : ℚ) / roundFloat p (y : ℚ) := by positivity
  have hd1 : roundFloat p (x : ℚ) / roundFloat p (y : ℚ) ≤ 1 :=
    (div_le_one hfy).2 hfxy
  exact ⟨roundFloat_nonneg p hd0, roundFloat_le_one p hp hd0 hd1⟩

/-- Multiplying a float in `[0, 1]` by `10` and truncating yields a score
in `[0, 10]`. -/
theorem score_mul10_bound (p : ℕ) (hp : 4 ≤ p) {d : ℚ} (h0 : 0 ≤ d) (h1 : d ≤ 1) :
    0 ≤ truncInt (roundFloat p (10 * d)) ∧ truncInt (roundFloat p (10 * d)) ≤ 10 := by
  have hm0 : (0 : ℚ) ≤ 10 * d := by positivity
  have hm1 : 10 * d ≤ 10 := by linarith
  exact truncInt_bounds (roundFloat_nonneg p hm0) (roundFloat_le_ten p hp hm0 hm1)


example : CalculateInterPodAffinityPriority s4CandidatePod s4NodeNameToInfo s4Nodes =
    [⟨"m1", 10⟩, ⟨"m2", 0⟩] := of_decide_eq_true (by with_unfolding_all rfl)
example : PodFitsResources [s1Node] s1CandidatePod [s1ExistingPod] "m1" =
    some (false, some "PodExceedsFreeCPU") := of_decide_eq_true (by with_unfolding_all rfl)
example : PodFitsResources [s1Node] zeroRequestPod [hugeExistingPod] "m1" =
    some (true, none) := of_decide_eq_true (by with_unfolding_all rfl)
example : PodTolerationsMatchNodeTaints s2Pod s2Node = true :=
  of_decide_eq_true (by with_unfolding_all rfl)
example : PodTolerationsMatchNodeTaints noTolerationPod preferOnlyNode = false :=
  of_decide_eq_true (by with_unfolding_all rfl)
example : PodTolerationsMatchNodeTaints unrelatedTolerationPod noExecuteNode = true :=
  of_decide_eq_true (by with_unfolding_all rfl)
example : PodFitsHostPorts s3CandidatePod80 [s3ExistingPod] = false :=
  of_decide_eq_true (by with_unfolding_all rfl)
example : PodFitsHostPorts s3CandidatePod0 [s3ExistingPod] = true :=
  of_decide_eq_true (by with_unfolding_all rfl)
example : ComputeTaintTolerationPriority noTolerationPod c4Nodes = [⟨"n4", 1⟩, ⟨"n5", 0⟩] :=
  of_decide_eq_true (by with_unfolding_all rfl)
example : CalculateAffinityPriority c5CandidatePod [c5PlacedPod] c5Minions = [⟨"m1", 0⟩] :=
  of_decide_eq_true (by with_unfolding_all rfl)
example : SelectorAffinityCalculateAffinityPriority c5CandidatePod [c5PlacedPod] c5Minions =
    [⟨"m1", 10⟩] := of_decide_eq_true (by with_unfolding_all rfl)
example : reorganizeTaints c10DupNode false [] [] =
    some [{ key := "k", value := "v1", effect := "NoSchedule" }] :=
  of_decide_eq_true (by with_unfolding_all rfl)
example : reorganizeTaints c10Node false [{ key := "b", value := "3", effect := "NoSchedule" }]
    ["c"] = some [{ key := "b", value := "3", effect := "NoSchedule" },
      { key := "a", value := "1", effect := "NoSchedule" }] :=
  of_decide_eq_true (by with_unfolding_all rfl)
example : parseTaints (fun _ => true) (fun _ => true) ["a=b:NoExecute".data] = none :=
  of_decide_eq_true (by with_unfolding_all rfl)
example : parseTaints (fun _ => true) (fun _ => true) ["a=b:NoSchedule".data] =
    some ([{ key := "a", value := "b", effect := "NoSchedule" }], []) :=
  of_decide_eq_true (by with_unfolding_all rfl)
example : parseTaints (fun _ => true) (fun _ => true) ["foo-".data] = some ([], ["foo"]) :=
  of_decide_eq_true (by with_unfolding_all rfl)

/-!
## Shared list lemmas
-/

theorem foldl_preserve {α β : Type} (P : β → Prop) (f : β → α → β) :
    ∀ (l : List α) (b : β), P b → (∀ b2 a, a ∈ l → P b2 → P (f b2 a)) → P (l.foldl f b) := by
  intro l
  induction l with
  | nil => intro b hb _; exact hb
  | cons x xs ih =>
    intro b hb hf
    exact ih _ (hf b x (List.mem_cons_self x xs) hb)
      (fun b2 a ha => hf b2 a (List.mem_cons_of_mem x ha))

theorem mem_foldl_containers (x : ℤ) :
    ∀ (cs : List Container) (init : List ℤ),
      x ∈ cs.foldl (fun acc c => acc ++ c.hostPorts) init ↔
        x ∈ init ∨ ∃ c ∈ cs, x ∈ c.hostPorts := by
  intro cs
  induction cs with
  | nil => simp
  | cons c cs ih =>
    intro init
    rw [List.foldl_cons, ih]
    simp [List.mem_append]
    tauto

theorem mem_getUsedPorts {x : ℤ} {pods : List Pod} :
    x ∈ getUsedPorts pods ↔ ∃ pod ∈ pods, ∃ c ∈ pod.containers, x ∈ c.hostPorts := by
  unfold getUsedPorts
  suffices h : ∀ (ps : List Pod) (init : List ℤ),
      x ∈ ps.foldl (fun acc pod => pod.containers.foldl (fun acc c => acc ++ c.hostPorts) acc) init ↔
        x ∈ init ∨ ∃ pod ∈ ps, ∃ c ∈ pod.containers, x ∈ c.hostPorts by
    rw [h pods []]
    simp
  intro ps
  induction ps with
  | nil => simp
  | cons pod ps ih =>
    intro init
    rw [List.foldl_cons, ih, mem_foldl_containers]
    simp only [List.mem_cons]
    constructor
    · rintro ((h | ⟨c, hc, hx⟩) | ⟨p, hp, c, hc, hx⟩)
      · exact Or.inl h
      · exact Or.inr ⟨pod, Or.inl rfl, c, hc, hx⟩
      · exact Or.inr ⟨p, Or.inr hp, c, hc, hx⟩
    · rintro (h | ⟨p, (rfl | hp), c, hc, hx⟩)
      · exact Or.inl (Or.inl h)
      · exact Or.inl (Or.inr ⟨c, hc, hx⟩)
      · exact Or.inr ⟨p, hp, c, hc, hx⟩

/-!
## C1 — Inter-pod affinity symmetry (scenario S4)
-/

/-- C1: In scenario S4 (existing pod on `m1` carrying a hard pod-affinity
term on key `security` with topology key `region`; candidate pod labelled
`security=S1` with no affinity of its own; nodes `m1 {region:China}` and
`m2 {region:India}`), `CalculateInterPodAffinityPriority` scores `m1`
strictly above `m2`: the symmetric implicit weight 1 yields the score list
`[m1 ↦ 10, m2 ↦ 0]`. -/
theorem c1_interpod_s4_symmetric_hard_affinity :
    CalculateInterPodAffinityPriority s4CandidatePod s4NodeNameToInfo s4Nodes =
      [⟨"m1", 10⟩, ⟨"m2", 0⟩] ∧
    ∃ sm1 sm2 : ℤ,
      HostPriority.mk "m1" sm1 ∈
        CalculateInterPodAffinityPriority s4CandidatePod s4NodeNameToInfo s4Nodes ∧
      HostPriority.mk "m2" sm2 ∈
        CalculateInterPodAffinityPriority s4CandidatePod s4NodeNameToInfo s4Nodes ∧
      sm2 < sm1 := by
  have h : CalculateInterPodAffinityPriority s4CandidatePod s4NodeNameToInfo s4Nodes =
      [⟨"m1", 10⟩, ⟨"m2", 0⟩] := of_decide_eq_true (by with_unfolding_all rfl)
  refine ⟨h, 10, 0, ?_, ?_, by norm_num⟩
  · rw [h]; simp
  · rw [h]; simp

/-!
## C9 — Host-port conflicts are only checked against already-placed pods
-/

/-- C9: a pod whose containers declare the same non-zero host port twice
(or more) is still accepted by `PodFitsHostPorts` when the list of
already-placed pods is empty — self-conflicts are never checked. -/
theorem c9_duplicate_host_ports_in_pod_accepted (pod : Pod)
    (h : ∃ p : ℤ, p ≠ 0 ∧ 2 ≤ (getUsedPorts [pod]).count p) :
    PodFitsHostPorts pod [] = true := by
  unfold PodFitsHostPorts
  apply List.all_eq_true.2
  intro wport _
  have hempty : getUsedPorts [] = [] := rfl
  rw [hempty]
  split
  · rfl
  · rfl

/-- Witness for C9 at the concrete pod declaring host port 80 twice. -/
theorem c9_witness : PodFitsHostPorts duplicatePortPod [] = true :=
  c9_duplicate_host_ports_in_pod_accepted duplicatePortPod
    ⟨80, by norm_num, of_decide_eq_true (by with_unfolding_all rfl)⟩

/-!
## C7 — PodFitsHostPorts characterization (scenario S3)
-/

/-- C7: `PodFitsHostPorts` accepts exactly when no non-zero host port of
the candidate pod's containers is declared by a container of an
already-placed pod; and in scenario S3 a candidate re-using host port 80
is rejected while a candidate with host port 0 is accepted. -/
theorem c7_pod_fits_host_ports_iff :
    (∀ (pod : Pod) (existingPods : List Pod),
      PodFitsHostPorts pod existingPods = true ↔
        ∀ c ∈ pod.containers, ∀ p ∈ c.hostPorts, p ≠ 0 →
          ∀ ep ∈ existingPods, ∀ c2 ∈ ep.containers, p ∉ c2.hostPorts) ∧
    PodFitsHostPorts s3CandidatePod80 [s3ExistingPod] = false ∧
    PodFitsHostPorts s3CandidatePod0 [s3ExistingPod] = true := by
  refine ⟨?_, of_decide_eq_true (by with_unfolding_all rfl),
    of_decide_eq_true (by with_unfolding_all rfl)⟩
  intro pod existingPods
  unfold PodFitsHostPorts
  rw [List.all_eq_true]
  constructor
  · intro h c hc p hp hp0 ep hep c2 hc2 hmem
    have hw : p ∈ getUsedPorts [pod] :=
      mem_getUsedPorts.2 ⟨pod, by simp, c, hc, hp⟩
    have hres := h p hw
    have hbeq : (p == (0 : ℤ)) = false := by simp [hp0]
    rw [if_neg (by simp [hbeq])] at hres
    have hcontains : (getUsedPorts existingPods).contains p = true := by
      have : p ∈ getUsedPorts existingPods := mem_getUsedPorts.2 ⟨ep, hep, c2, hc2, hmem⟩
      simpa [List.contains] using this
    rw [hcontains] at hres
    simp at hres
  · intro h wport hw
    by_cases h0 : wport = 0
    · subst h0
      simp
    · rw [if_neg (by simp [h0])]
      simp only [Bool.not_eq_true']
      by_contra hcon
      have hmem2 : wport ∈ getUsedPorts existingPods := by
        have : (getUsedPorts existingPods).contains wport = true := by
          revert hcon
          cases (getUsedPorts existingPods).contains wport <;> simp
        simpa [List.contains] using this
      obtain ⟨ep, hep, c2, hc2, hmem2⟩ := mem_getUsedPorts.1 hmem2
      obtain ⟨pod2, hpod2, c, hc, hp⟩ := mem_getUsedPorts.1 hw
      have hpod2' : pod2 = pod := by simpa using hpod2
      subst hpod2'
      exact h c hc wport hp h0 ep hep c2 hc2 hmem2

/-!
## C2 — PodToleratesNodeTaints characterization
-/

theorem tolerationMatchesTaint_iff (r : Toleration) (t : Taint) :
    tolerationMatchesTaint r t = true ↔
      r.key = t.key ∧
        (((r.operator = "Equal" ∨ r.operator = "") ∧ r.value = t.value ∧ r.effect = t.effect) ∨
         (r.operator = "Exists" ∧ r.effect = t.effect)) := by
  unfold tolerationMatchesTaint TolerationOpEqual TolerationOpExists
  by_cases h1 : r.operator = "Equal"
  · simp [h1, and_assoc]
  · by_cases h2 : r.operator = ""
    · simp [h1, h2, and_assoc]
    · by_cases h3 : r.operator = "Exists"
      · simp [h1, h2, h3]
      · have c1 : (r.operator == "Equal" || r.operator == "") = false := by
          simp [h1, h2]
        have c2 : (r.operator == "Exists") = false := by simp [h3]
        simp [c1, c2, h1, h2, h3]

theorem taint_gate_iff (pod : Pod) (t : Taint) :
    ((if t.effect == TaintEffectNoSchedule || t.effect == TaintEffectNoScheduleNoAdmit ||
          t.effect == TaintEffectNoScheduleNoAdmitNoExecute then
        pod.tolerations.any fun r => tolerationMatchesTaint r t
      else true) = true) ↔
      (t.effect = "NoSchedule" ∨ t.effect = "NoScheduleNoAdmit" ∨
          t.effect = "NoScheduleNoAdmitNoExecute" →
        ∃ r ∈ pod.tolerations, r.key = t.key ∧
          (((r.operator = "Equal" ∨ r.operator = "") ∧ r.value = t.value ∧ r.effect = t.effect) ∨
           (r.operator = "Exists" ∧ r.effect = t.effect))) := by
  unfold TaintEffectNoSchedule TaintEffectNoScheduleNoAdmit TaintEffectNoScheduleNoAdmitNoExecute
  split
  case isTrue hcond =>
    have he : t.effect = "NoSchedule" ∨ t.effect = "NoScheduleNoAdmit" ∨
        t.effect = "NoScheduleNoAdmitNoExecute" := by
      simpa [or_assoc] using hcond
    constructor
    · intro h _
      obtain ⟨r, hr, hmatch⟩ := List.any_eq_true.1 h
      exact ⟨r, hr, (tolerationMatchesTaint_iff r t).1 hmatch⟩
    · intro h
      obtain ⟨r, hr, hprop⟩ := h he
      exact List.any_eq_true.2 ⟨r, hr, (tolerationMatchesTaint_iff r t).2 hprop⟩
  case isFalse hcond =>
    have hne : ¬(t.effect = "NoSchedule" ∨ t.effect = "NoScheduleNoAdmit" ∨
        t.effect = "NoScheduleNoAdmitNoExecute") := by
      intro hA
      apply hcond
      rcases hA with h | h | h <;> simp [h]
    constructor
    · intro _ hA
      exact absurd hA hne
    · intro _
      rfl

/-- C2 (amended): `PodTolerationsMatchNodeTaints` accepts iff — when the pod
has no tolerations — the node has no taints at all (regardless of effect),
and otherwise iff every taint whose effect is one of the three NoSchedule
variants (`NoSchedule`, `NoScheduleNoAdmit`, `NoScheduleNoAdmitNoExecute`)
is matched by some toleration; `PreferNoSchedule` and `NoExecute` taints are
ignored in that case.  Scenario S2 evaluates to accept. -/
theorem c2_pod_tolerates_node_taints_characterization :
    (∀ (pod : Pod) (node : Node),
      PodTolerationsMatchNodeTaints pod node = true ↔
        (if pod.tolerations = [] then node.taints = []
         else ∀ t ∈ node.taints,
           t.effect = "NoSchedule" ∨ t.effect = "NoScheduleNoAdmit" ∨
             t.effect = "NoScheduleNoAdmitNoExecute" →
           ∃ r ∈ pod.tolerations, r.key = t.key ∧
             (((r.operator = "Equal" ∨ r.operator = "") ∧ r.value = t.value ∧
                 r.effect = t.effect) ∨
              (r.operator = "Exists" ∧ r.effect = t.effect)))) ∧
    PodTolerationsMatchNodeTaints s2Pod s2Node = true := by
  refine ⟨?_, of_decide_eq_true (by with_unfolding_all rfl)⟩
  intro pod node
  unfold PodTolerationsMatchNodeTaints
  by_cases h0 : pod.tolerations = []
  · rw [if_pos h0]
    simp only [h0, List.length_nil]
    cases node.taints <;> simp
  · have hlen : pod.tolerations.length ≠ 0 := by
      simpa [List.length_eq_zero] using h0
    rw [if_neg h0]
    by_cases ht : node.taints = []
    · simp [ht, hlen]
    · have hlen2 : node.taints.length ≠ 0 := by
        simpa [List.length_eq_zero] using ht
      rw [if_neg (by simpa using hlen), if_neg (by simpa using hlen2), List.all_eq_true]
      constructor
      · intro h t htm he
        exact (taint_gate_iff pod t).1 (h t htm) he
      · intro h t htm
        exact (taint_gate_iff pod t).2 (h t htm)

/-- C2 counterexample: a pod with no tolerations is rejected by a node whose
only taints are `PreferNoSchedule` (the empty-tolerations short-circuit
requires a taint-free node), and a taint with effect `NoExecute` — which is
not `PreferNoSchedule` — is accepted without any matching toleration. -/
theorem c2_counterexample :
    PodTolerationsMatchNodeTaints noTolerationPod preferOnlyNode = false ∧
    noTolerationPod.tolerations = [] ∧
    (∀ t ∈ preferOnlyNode.taints, t.effect = "PreferNoSchedule") ∧
    preferOnlyNode.taints ≠ [] ∧
    PodTolerationsMatchNodeTaints unrelatedTolerationPod noExecuteNode = true ∧
    (∀ t ∈ noExecuteNode.taints, t.effect = "NoExecute") ∧
    (∀ r ∈ unrelatedTolerationPod.tolerations, ∀ t ∈ noExecuteNode.taints,
      ¬ (r.key = t.key)) :=
  of_decide_eq_true (by with_unfolding_all rfl)

/-!
## C5 — ServiceAffinity default score: the two retained variants disagree
-/

/-- C5: on an input where no already-placed pod in the candidate's namespace
carries a label matched by the candidate's affinity-selector (maximum tally
0), the canonical `CalculateAffinityPriority` scores every host 0, but the
retained `SelectorAffinity` draft variant scores the host 10: it defaults
`fScore` to `float32(10)` and tallies the candidate pod's own labels, so the
claim fails for that retained variant. -/
theorem c5_service_affinity_variants_disagree :
    (serviceAffinityCountsAndMax c5CandidatePod [c5PlacedPod]).2 = 0 ∧
    CalculateAffinityPriority c5CandidatePod [c5PlacedPod] c5Minions = [⟨"m1", 0⟩] ∧
    SelectorAffinityCalculateAffinityPriority c5CandidatePod [c5PlacedPod] c5Minions =
      [⟨"m1", 10⟩] :=
  of_decide_eq_true (by with_unfolding_all rfl)

/-!
## C3 — PodFitsResources
-/

theorem checkPodStep_nfCPU (ccpu cmem : ℤ) (s : CheckState) (p : Pod) :
    (checkPodStep ccpu cmem s p).notFittingCPU = s.notFittingCPU ∨
    (checkPodStep ccpu cmem s p).notFittingCPU = s.notFittingCPU ++ [p] := by
  simp only [checkPodStep]
  split
  · exact Or.inr rfl
  · split
    · exact Or.inl rfl
    · exact Or.inl rfl

theorem checkPodStep_nfMem (ccpu cmem : ℤ) (s : CheckState) (p : Pod) :
    (checkPodStep ccpu cmem s p).notFittingMemory = s.notFittingMemory ∨
    (checkPodStep ccpu cmem s p).notFittingMemory = s.notFittingMemory ++ [p] := by
  simp only [checkPodStep]
  split
  · exact Or.inl rfl
  · split
    · exact Or.inr rfl
    · exact Or.inl rfl

theorem checkFold_nfCPU_extend (ccpu cmem : ℤ) :
    ∀ (pods : List Pod) (s : CheckState),
      ∃ l, (pods.foldl (checkPodStep ccpu cmem) s).notFittingCPU = s.notFittingCPU ++ l := by
  intro pods
  induction pods with
  | nil => intro s; exact ⟨[], by simp⟩
  | cons p ps ih =>
    intro s
    obtain ⟨l, hl⟩ := ih (checkPodStep ccpu cmem s p)
    rcases checkPodStep_nfCPU ccpu cmem s p with h | h
    · exact ⟨l, by rw [List.foldl_cons, hl, h]⟩
    · exact ⟨p :: l, by rw [List.foldl_cons, hl, h]; simp⟩

theorem checkFold_nfMem_extend (ccpu cmem : ℤ) :
    ∀ (pods : List Pod) (s : CheckState),
      ∃ l, (pods.foldl (checkPodStep ccpu cmem) s).notFittingMemory =
        s.notFittingMemory ++ l := by
  intro pods
  induction pods with
  | nil => intro s; exact ⟨[], by simp⟩
  | cons p ps ih =>
    intro s
    obtain ⟨l, hl⟩ := ih (checkPodStep ccpu cmem s p)
    rcases checkPodStep_nfMem ccpu cmem s p with h | h
    · exact ⟨l, by rw [List.foldl_cons, hl, h]⟩
    · exact ⟨p :: l, by rw [List.foldl_cons, hl, h]; simp⟩

theorem checkPodStep_cases (ccpu cmem : ℤ) (s : CheckState) (p : Pod) :
    (checkPodStep ccpu cmem s p = { s with notFittingCPU := s.notFittingCPU ++ [p] }) ∨
    (checkPodStep ccpu cmem s p = { s with notFittingMemory := s.notFittingMemory ++ [p] }) ∨
    ((ccpu = 0 ∨ (getResourceRequest p).1 ≤ ccpu - s.milliCPURequested) ∧
     (cmem = 0 ∨ (getResourceRequest p).2 ≤ cmem - s.memoryRequested) ∧
     checkPodStep ccpu cmem s p = { s with
        milliCPURequested := s.milliCPURequested + (getResourceRequest p).1,
        memoryRequested := s.memoryRequested + (getResourceRequest p).2,
        fitting := s.fitting ++ [p] }) := by
  simp only [checkPodStep]
  split
  case isTrue h => exact Or.inl rfl
  case isFalse h =>
    split
    case isTrue h2 => exact Or.inr (Or.inl rfl)
    case isFalse h2 =>
      refine Or.inr (Or.inr ⟨?_, ?_, rfl⟩)
      · rcases not_not.1 h with h3 | h3
        · exact Or.inl h3
        · exact Or.inr h3
      · rcases not_not.1 h2 with h3 | h3
        · exact Or.inl h3
        · exact Or.inr h3

theorem checkFold_all_fit (ccpu cmem : ℤ) :
    ∀ (pods : List Pod) (s : CheckState),
      (pods.foldl (checkPodStep ccpu cmem) s).notFittingCPU = s.notFittingCPU →
      (pods.foldl (checkPodStep ccpu cmem) s).notFittingMemory = s.notFittingMemory →
      (ccpu ≠ 0 → s.milliCPURequested ≤ ccpu →
        s.milliCPURequested + sumCPU pods ≤ ccpu) ∧
      (cmem ≠ 0 → s.memoryRequested ≤ cmem →
        s.memoryRequested + sumMem pods ≤ cmem) := by
  intro pods
  induction pods with
  | nil =>
    intro s _ _
    constructor
    · intro _ hle
      simpa [sumCPU] using hle
    · intro _ hle
      simpa [sumMem] using hle
  | cons p ps ih =>
    intro s hC hM
    rw [List.foldl_cons] at hC hM
    rcases checkPodStep_cases ccpu cmem s p with hstep | hstep | ⟨h1, h2, hstep⟩
    · exfalso
      obtain ⟨l, hl⟩ := checkFold_nfCPU_extend ccpu cmem ps (checkPodStep ccpu cmem s p)
      rw [hC] at hl
      rw [hstep] at hl
      have := congrArg List.length hl
      simp at this
    · exfalso
      obtain ⟨l, hl⟩ := checkFold_nfMem_extend ccpu cmem ps (checkPodStep ccpu cmem s p)
      rw [hM] at hl
      rw [hstep] at hl
      have := congrArg List.length hl
      simp at this
    · rw [hstep] at hC hM
      have hihC : (ps.foldl (checkPodStep ccpu cmem) { s with
          milliCPURequested := s.milliCPURequested + (getResourceRequest p).1,
          memoryRequested := s.memoryRequested + (getResourceRequest p).2,
          fitting := s.fitting ++ [p] }).notFittingCPU =
          ({ s with
            milliCPURequested := s.milliCPURequested + (getResourceRequest p).1,
            memoryRequested := s.memoryRequested + (getResourceRequest p).2,
            fitting := s.fitting ++ [p] } : CheckState).notFittingCPU := hC
      have hihM : (ps.foldl (checkPodStep ccpu cmem) { s with
          milliCPURequested := s.milliCPURequested + (getResourceRequest p).1,
          memoryRequested := s.memoryRequested + (getResourceRequest p).2,
          fitting := s.fitting ++ [p] }).notFittingMemory =
          ({ s with
            milliCPURequested := s.milliCPURequested + (getResourceRequest p).1,
            memoryRequested := s.memoryRequested + (getResourceRequest p).2,
            fitting := s.fitting ++ [p] } : CheckState).notFittingMemory := hM
      obtain ⟨ihc, ihm⟩ := ih _ hihC hihM
      constructor
      · intro hne hle
        have hreq : (getResourceRequest p).1 ≤ ccpu - s.milliCPURequested := by
          rcases h1 with h | h
          · exact absurd h hne
          · exact h
        have := ihc hne (by simp; omega)
        simp at this
        simp [sumCPU] at this ⊢
        omega
      · intro hne hle
        have hreq : (getResourceRequest p).2 ≤ cmem - s.memoryRequested := by
          rcases h2 with h | h
          · exact absurd h hne
          · exact h
        have := ihm hne (by simp; omega)
        simp at this
        simp [sumMem] at this ⊢
        omega

/-- C3 (amended): scenario S1 evaluates to `(false, PodExceedsFreeCPU)`; and
in general, when the candidate pod has a non-zero resource request and the
node's CPU (resp. memory) capacity is tracked (non-zero) yet smaller than the
total CPU (resp. memory) requested by the candidate together with the
already-placed pods, `PodFitsResources` rejects with some failure category.
(The original claim fails for candidates with all-zero requests, which are
accepted unconditionally — see the counterexample.) -/
theorem c3_pod_fits_resources :
    PodFitsResources [s1Node] s1CandidatePod [s1ExistingPod] "m1" =
      some (false, some "PodExceedsFreeCPU") ∧
    ∀ (info : List Node) (pod : Pod) (existingPods : List Pod) (nodeName : String)
      (node : Node),
      GetNodeInfo info nodeName = some node →
      0 ≤ node.capMilliCPU → 0 ≤ node.capMemory →
      ¬((getResourceRequest pod).1 = 0 ∧ (getResourceRequest pod).2 = 0) →
      ((node.capMilliCPU ≠ 0 ∧ node.capMilliCPU < sumCPU (existingPods ++ [pod])) ∨
       (node.capMemory ≠ 0 ∧ node.capMemory < sumMem (existingPods ++ [pod]))) →
      ∃ r : String, PodFitsResources info pod existingPods nodeName =
        some (false, some r) := by
  refine ⟨of_decide_eq_true (by with_unfolding_all rfl), ?_⟩
  intro info pod existingPods nodeName node hga hc0 hm0 hnz hover
  have hPF : PodFitsResources info pod existingPods nodeName =
      (if (existingPods.length : ℤ) + 1 > node.capPods then
        some (false, some "PodExceedsMaxPodNumber")
       else if (getResourceRequest pod).1 = 0 ∧ (getResourceRequest pod).2 = 0 then
        some (true, none)
       else if (CheckPodsExceedingFreeResources (existingPods ++ [pod])
          node.capMilliCPU node.capMemory).2.1.length > 0 then
        some (false, some "PodExceedsFreeCPU")
       else if (CheckPodsExceedingFreeResources (existingPods ++ [pod])
          node.capMilliCPU node.capMemory).2.2.length > 0 then
        some (false, some "PodExceedsFreeMemory")
       else some (true, none)) := by
    unfold PodFitsResources
    rw [hga]
  rw [hPF]
  by_cases hcap : (existingPods.length : ℤ) + 1 > node.capPods
  · rw [if_pos hcap]
    exact ⟨"PodExceedsMaxPodNumber", rfl⟩
  · rw [if_neg hcap, if_neg hnz]
    by_cases h1 : (CheckPodsExceedingFreeResources (existingPods ++ [pod])
        node.capMilliCPU node.capMemory).2.1.length > 0
    · rw [if_pos h1]
      exact ⟨"PodExceedsFreeCPU", rfl⟩
    · rw [if_neg h1]
      by_cases h2 : (CheckPodsExceedingFreeResources (existingPods ++ [pod])
          node.capMilliCPU node.capMemory).2.2.length > 0
      · rw [if_pos h2]
        exact ⟨"PodExceedsFreeMemory", rfl⟩
      · exfalso
        have hC : ((existingPods ++ [pod]).foldl
            (checkPodStep node.capMilliCPU node.capMemory)
            ⟨[], [], [], 0, 0⟩).notFittingCPU = [] := by
          have : (CheckPodsExceedingFreeResources (existingPods ++ [pod])
              node.capMilliCPU node.capMemory).2.1 = [] :=
            List.length_eq_zero.1 (by omega)
          simpa [CheckPodsExceedingFreeResources] using this
        have hM : ((existingPods ++ [pod]).foldl
            (checkPodStep node.capMilliCPU node.capMemory)
            ⟨[], [], [], 0, 0⟩).notFittingMemory = [] := by
          have : (CheckPodsExceedingFreeResources (existingPods ++ [pod])
              node.capMilliCPU node.capMemory).2.2 = [] :=
            List.length_eq_zero.1 (by omega)
          simpa [CheckPodsExceedingFreeResources] using this
        obtain ⟨hckc, hckm⟩ := checkFold_all_fit node.capMilliCPU node.capMemory
          (existingPods ++ [pod]) ⟨[], [], [], 0, 0⟩ hC hM
        rcases hover with ⟨hne, hlt⟩ | ⟨hne, hlt⟩
        · have := hckc hne (by simpa using hc0)
          simp at this
          omega
        · have := hckm hne (by simpa using hm0)
          simp at this
          omega

/-- C3 counterexample: a candidate pod requesting zero CPU and zero memory
is accepted even though the already-placed pods alone exceed the node's
non-zero CPU capacity — the claimed general rejection rule does not hold. -/
theorem c3_counterexample :
    PodFitsResources [s1Node] zeroRequestPod [hugeExistingPod] "m1" = some (true, none) ∧
    s1Node.capMilliCPU ≠ 0 ∧
    s1Node.capMilliCPU < sumCPU ([hugeExistingPod] ++ [zeroRequestPod]) :=
  of_decide_eq_true (by with_unfolding_all rfl)


/-- Witness for C3's general rejection direction at the S1 inputs. -/
theorem c3_witness :
    ∃ r : String, PodFitsResources [s1Node] s1CandidatePod [s1ExistingPod] "m1" =
      some (false, some r) :=
  c3_pod_fits_resources.2 [s1Node] s1CandidatePod [s1ExistingPod] "m1" s1Node
    (by with_unfolding_all rfl)
    (of_decide_eq_true (by with_unfolding_all rfl))
    (of_decide_eq_true (by with_unfolding_all rfl))
    (of_decide_eq_true (by with_unfolding_all rfl))
    (Or.inl (of_decide_eq_true (by with_unfolding_all rfl)))

/-!
## C4 — TaintTolerationPriority scoring
-/

theorem truncInt_zero : truncInt (0 : ℚ) = 0 := by
  unfold truncInt
  rw [if_pos le_rfl]
  exact Int.floor_zero

theorem truncInt_ten : truncInt (10 : ℚ) = 10 := by
  unfold truncInt
  rw [if_pos (by norm_num)]
  rw [show (10 : ℚ) = ((10 : ℤ) : ℚ) by norm_num, Int.floor_intCast]

theorem countIntolerable_eq_filter (taints : List Taint) (tols : List Toleration) :
    countIntolerableTaintsPreferNoSchedule taints tols =
      ((taints.filter fun t => t.effect == TaintEffectPreferNoSchedule &&
          !(taintTolerable tols t)).length : ℤ) := by
  unfold countIntolerableTaintsPreferNoSchedule
  suffices h : ∀ (ts : List Taint) (n : ℤ),
      ts.foldl (fun intolerableTaints taint =>
        if taint.effect != TaintEffectPreferNoSchedule then intolerableTaints
        else if taintTolerable tols taint then intolerableTaints
        else intolerableTaints + 1) n =
      n + ((ts.filter fun t => t.effect == TaintEffectPreferNoSchedule &&
          !(taintTolerable tols t)).length : ℤ) by
    simpa using h taints 0
  intro ts
  induction ts with
  | nil => intro n; simp
  | cons t ts ih =>
    intro n
    rw [List.foldl_cons, List.filter_cons]
    by_cases h1 : (t.effect == TaintEffectPreferNoSchedule) = true
    · rw [if_neg (by simp [bne, h1])]
      by_cases h2 : taintTolerable tols t = true
      · rw [if_pos h2, if_neg (by simp [h1, h2]), ih]
      · rw [if_neg h2, if_pos (by simp [h1, h2]), ih]
        simp
        omega
    · rw [if_pos (by simp [bne]; simpa using h1), if_neg (by simp [h1]), ih]

theorem fold_mapSet_untouched (g : Node → ℤ) :
    ∀ (nodes : List Node) (acc0 : (String → ℤ) × ℤ) (s : String),
      s ∉ nodes.map Node.name →
      (nodes.foldl (fun acc node =>
        (mapSet acc.1 node.name (g node),
         if g node > acc.2 then g node else acc.2)) acc0).1 s = acc0.1 s := by
  intro nodes
  induction nodes with
  | nil => intro acc0 s _; rfl
  | cons n ns ih =>
    intro acc0 s hs
    simp only [List.map_cons, List.mem_cons, not_or] at hs
    rw [List.foldl_cons, ih _ s hs.2]
    simp [mapSet, hs.1]

theorem fold_mapSet_lookup (g : Node → ℤ) :
    ∀ (nodes : List Node) (acc0 : (String → ℤ) × ℤ) (n : Node),
      n ∈ nodes → (nodes.map Node.name).Nodup →
      (nodes.foldl (fun acc node =>
        (mapSet acc.1 node.name (g node),
         if g node > acc.2 then g node else acc.2)) acc0).1 n.name = g n := by
  intro nodes
  induction nodes with
  | nil => intro acc0 n hn _; cases hn
  | cons m ns ih =>
    intro acc0 n hn hnd
    simp only [List.map_cons, List.nodup_cons] at hnd
    rw [List.foldl_cons]
    rcases List.mem_cons.1 hn with rfl | hn2
    · rw [fold_mapSet_untouched g ns _ _ hnd.1]
      simp [mapSet]
    · exact ih _ n hn2 hnd.2

theorem fold_max_ge (g : Node → ℤ) :
    ∀ (nodes : List Node) (acc0 : (String → ℤ) × ℤ),
      acc0.2 ≤ (nodes.foldl (fun acc node =>
        (mapSet acc.1 node.name (g node),
         if g node > acc.2 then g node else acc.2)) acc0).2 ∧
      ∀ n ∈ nodes, g n ≤ (nodes.foldl (fun acc node =>
        (mapSet acc.1 node.name (g node),
         if g node > acc.2 then g node else acc.2)) acc0).2 := by
  intro nodes
  induction nodes with
  | nil => intro acc0; exact ⟨le_refl _, by simp⟩
  | cons m ns ih =>
    intro acc0
    rw [List.foldl_cons]
    obtain ⟨h1, h2⟩ := ih (mapSet acc0.1 m.name (g m), if g m > acc0.2 then g m else acc0.2)
    constructor
    · refine le_trans ?_ h1
      dsimp only
      split <;> omega
    · intro n hn
      rcases List.mem_cons.1 hn with rfl | hn2
      · refine le_trans ?_ h1
        dsimp only
        split <;> omega
      · exact h2 n hn2

theorem taintCountsAndMax_eq (pod : Pod) (nodes : List Node) :
    taintCountsAndMax pod nodes =
      nodes.foldl (fun acc node =>
        (mapSet acc.1 node.name (countIntolerableTaintsPreferNoSchedule node.taints
            (getAllTolerationEffectPreferNoSchedule pod.tolerations)),
         if countIntolerableTaintsPreferNoSchedule node.taints
              (getAllTolerationEffectPreferNoSchedule pod.tolerations) > acc.2 then
           countIntolerableTaintsPreferNoSchedule node.taints
              (getAllTolerationEffectPreferNoSchedule pod.tolerations)
         else acc.2)) ((fun _ => 0), 0) := rfl

theorem taint_score_at_zero (m : ℤ) :
    truncInt (float64 (float64 (1 - float64 (float64 ((0 : ℤ) : ℚ) /
      float64 ((m : ℤ) : ℚ))) * 10)) = 10 := by
  rw [show ((0 : ℤ) : ℚ) = 0 by norm_num, show float64 0 = 0 from roundFloat_zero 53,
    zero_div, show float64 0 = 0 from roundFloat_zero 53,
    show (1 : ℚ) - 0 = 1 by norm_num, show float64 1 = 1 from roundFloat_one 53 (by norm_num),
    show (1 : ℚ) * 10 = 10 by norm_num,
    show float64 10 = 10 from roundFloat_ten 53 (by norm_num)]
  exact truncInt_ten

theorem taint_score_at_max (m : ℤ) (hm : 0 < m) :
    truncInt (float64 (float64 (1 - float64 (float64 ((m : ℤ) : ℚ) /
      float64 ((m : ℤ) : ℚ))) * 10)) = 0 := by
  have hpos : (0 : ℚ) < float64 ((m : ℤ) : ℚ) :=
    roundFloat_pos 53 (by norm_num) (by exact_mod_cast hm)
  rw [div_self (ne_of_gt hpos), show float64 1 = 1 from roundFloat_one 53 (by norm_num),
    show (1 : ℚ) - 1 = 0 by norm_num, show float64 0 = 0 from roundFloat_zero 53,
    show (0 : ℚ) * 10 = 0 by norm_num, show float64 0 = 0 from roundFloat_zero 53]
  exact truncInt_zero

/-- C4 (amended): the per-node intolerable count is the number of
`PreferNoSchedule` taints not tolerated by the pod's `PreferNoSchedule`
tolerations; when the maximum count is 0 every node scores 10; and — under
distinct node names — every node with count 0 scores 10, every node
attaining a positive maximum count scores 0, and no count exceeds the
maximum.  (The exact intermediate scores use Go `float64` rounding, not
`floor(10·(1 − count/max))` — see the counterexample.) -/
theorem c4_taint_toleration_scoring :
    (∀ (taints : List Taint) (tols : List Toleration),
      countIntolerableTaintsPreferNoSchedule taints tols =
        ((taints.filter fun t => t.effect == TaintEffectPreferNoSchedule &&
            !(taintTolerable tols t)).length : ℤ)) ∧
    (∀ (pod : Pod) (nodes : List Node),
      (taintCountsAndMax pod nodes).2 = 0 →
      ∀ hp ∈ ComputeTaintTolerationPriority pod nodes, hp.score = 10) ∧
    (∀ (pod : Pod) (nodes : List Node) (node : Node),
      (nodes.map Node.name).Nodup → node ∈ nodes →
      countIntolerableTaintsPreferNoSchedule node.taints
          (getAllTolerationEffectPreferNoSchedule pod.tolerations) ≤
        (taintCountsAndMax pod nodes).2 ∧
      (countIntolerableTaintsPreferNoSchedule node.taints
          (getAllTolerationEffectPreferNoSchedule pod.tolerations) = 0 →
        HostPriority.mk node.name 10 ∈ ComputeTaintTolerationPriority pod nodes) ∧
      (0 < (taintCountsAndMax pod nodes).2 →
        countIntolerableTaintsPreferNoSchedule node.taints
            (getAllTolerationEffectPreferNoSchedule pod.tolerations) =
          (taintCountsAndMax pod nodes).2 →
        HostPriority.mk node.name 0 ∈ ComputeTaintTolerationPriority pod nodes)) := by
  refine ⟨countIntolerable_eq_filter, ?_, ?_⟩
  · intro pod nodes hmax hp hmem
    simp only [ComputeTaintTolerationPriority] at hmem
    obtain ⟨node, hnode, heq⟩ := List.mem_map.1 hmem
    rw [← heq]
    show truncInt (if (taintCountsAndMax pod nodes).2 > 0 then _ else (10 : ℚ)) = 10
    rw [if_neg (by rw [hmax]; norm_num)]
    exact truncInt_ten
  · intro pod nodes node hnd hnode
    have hlook : (taintCountsAndMax pod nodes).1 node.name =
        countIntolerableTaintsPreferNoSchedule node.taints
          (getAllTolerationEffectPreferNoSchedule pod.tolerations) := by
      rw [taintCountsAndMax_eq]
      exact fold_mapSet_lookup _ nodes _ node hnode hnd
    have hle : countIntolerableTaintsPreferNoSchedule node.taints
          (getAllTolerationEffectPreferNoSchedule pod.tolerations) ≤
        (taintCountsAndMax pod nodes).2 := by
      rw [taintCountsAndMax_eq]
      exact (fold_max_ge _ nodes _).2 node hnode
    refine ⟨hle, ?_, ?_⟩
    · intro hcnt0
      simp only [ComputeTaintTolerationPriority]
      refine List.mem_map.2 ⟨node, hnode, ?_⟩
      show (⟨node.name, truncInt (if (taintCountsAndMax pod nodes).2 > 0 then _ else (10 : ℚ))⟩ :
        HostPriority) = ⟨node.name, 10⟩
      by_cases hm : (taintCountsAndMax pod nodes).2 > 0
      · rw [if_pos hm, hlook, hcnt0]
        rw [taint_score_at_zero]
      · rw [if_neg hm, truncInt_ten]
    · intro hmpos hcntmax
      simp only [ComputeTaintTolerationPriority]
      refine List.mem_map.2 ⟨node, hnode, ?_⟩
      show (⟨node.name, truncInt (if (taintCountsAndMax pod nodes).2 > 0 then _ else (10 : ℚ))⟩ :
        HostPriority) = ⟨node.name, 0⟩
      rw [if_pos hmpos, hlook, hcntmax, taint_score_at_max _ hmpos]

/-- C4 counterexample: with no tolerations, a node with 4 intolerable
`PreferNoSchedule` taints against a maximum of 5 scores 1 in the code
(Go float64 arithmetic: `(1.0 − 4.0/5.0) * 10` rounds to slightly below 2
and truncates to 1), while the claimed formula `⌊10·(1 − 4/5)⌋` gives 2. -/
theorem c4_counterexample :
    ComputeTaintTolerationPriority noTolerationPod c4Nodes = [⟨"n4", 1⟩, ⟨"n5", 0⟩] ∧
    countIntolerableTaintsPreferNoSchedule (pnsTaints 4)
      (getAllTolerationEffectPreferNoSchedule noTolerationPod.tolerations) = 4 ∧
    (taintCountsAndMax noTolerationPod c4Nodes).2 = 5 ∧
    ⌊10 * (1 - (4 : ℚ) / 5)⌋ = 2 :=
  of_decide_eq_true (by with_unfolding_all rfl)

/-- Witness for C4's per-node special cases: node `n5` attains the maximum
count 5 > 0 and receives score 0. -/
theorem c4_witness :
    HostPriority.mk "n5" 0 ∈ ComputeTaintTolerationPriority noTolerationPod c4Nodes :=
  ((c4_taint_toleration_scoring.2.2 noTolerationPod c4Nodes
      { name := "n5", taints := pnsTaints 5 }
      (of_decide_eq_true (by with_unfolding_all rfl))
      (by unfold c4Nodes; exact List.Mem.tail _ (List.Mem.head _))).2.2
    (of_decide_eq_true (by with_unfolding_all rfl))
    (of_decide_eq_true (by with_unfolding_all rfl)))

/-!
## C6 — score range invariants
-/

theorem ratio_score_bound (p : ℕ) (hp : 4 ≤ p) (c m : ℤ) (hc : 0 ≤ c) (hcm : c ≤ m)
    (hm : 0 < m) :
    0 ≤ truncInt (roundFloat p (10 * roundFloat p
        (roundFloat p (c : ℚ) / roundFloat p (m : ℚ)))) ∧
      truncInt (roundFloat p (10 * roundFloat p
        (roundFloat p (c : ℚ) / roundFloat p (m : ℚ)))) ≤ 10 := by
  obtain ⟨hd0, hd1⟩ := floatDiv_unit p (by omega) hc hcm hm
  exact score_mul10_bound p hp hd0 hd1

theorem taint_score_bound (c m : ℤ) (hc : 0 ≤ c) (hcm : c ≤ m) (hm : 0 < m) :
    0 ≤ truncInt (float64 (float64 (1 - float64 (float64 (c : ℚ) / float64 (m : ℚ))) * 10)) ∧
      truncInt (float64 (float64 (1 - float64 (float64 (c : ℚ) / float64 (m : ℚ))) * 10)) ≤
        10 := by
  obtain ⟨hd0, hd1⟩ := floatDiv_unit 53 (by norm_num) hc hcm hm
  have hs0 : (0 : ℚ) ≤ 1 - roundFloat 53 (roundFloat 53 (c : ℚ) / roundFloat 53 (m : ℚ)) := by
    linarith
  have hs1 : 1 - roundFloat 53 (roundFloat 53 (c : ℚ) / roundFloat 53 (m : ℚ)) ≤ 1 := by
    linarith
  have ht0 : (0 : ℚ) ≤ float64 (1 - float64 (float64 (c : ℚ) / float64 (m : ℚ))) :=
    roundFloat_nonneg 53 hs0
  have ht1 : float64 (1 - float64 (float64 (c : ℚ) / float64 (m : ℚ))) ≤ 1 :=
    roundFloat_le_one 53 (by norm_num) hs0 hs1
  rw [mul_comm (float64 (1 - float64 (float64 (c : ℚ) / float64 (m : ℚ)))) 10]
  exact score_mul10_bound 53 (by norm_num) ht0 ht1

theorem fold_mapSet_invariant (g : Node → ℤ) (hg : ∀ n, 0 ≤ g n) (nodes : List Node) :
    0 ≤ (nodes.foldl (fun acc node =>
        (mapSet acc.1 node.name (g node),
         if g node > acc.2 then g node else acc.2)) ((fun _ => 0), 0)).2 ∧
    ∀ s, 0 ≤ (nodes.foldl (fun acc node =>
        (mapSet acc.1 node.name (g node),
         if g node > acc.2 then g node else acc.2)) ((fun _ => 0), 0)).1 s ∧
      (nodes.foldl (fun acc node =>
        (mapSet acc.1 node.name (g node),
         if g node > acc.2 then g node else acc.2)) ((fun _ => 0), 0)).1 s ≤
      (nodes.foldl (fun acc node =>
        (mapSet acc.1 node.name (g node),
         if g node > acc.2 then g node else acc.2)) ((fun _ => 0), 0)).2 := by
  refine foldl_preserve (fun acc : (String → ℤ) × ℤ =>
      0 ≤ acc.2 ∧ ∀ s, 0 ≤ acc.1 s ∧ acc.1 s ≤ acc.2) _ nodes _
    ⟨le_refl 0, fun _ => ⟨le_refl 0, le_refl 0⟩⟩ ?_
  intro acc node _ hP
  obtain ⟨h2, hmap⟩ := hP
  have hname := hmap node.name
  have hgn := hg node
  constructor
  · dsimp only
    split <;> omega
  · intro s
    dsimp only
    by_cases hs : s = node.name
    · subst hs
      rw [show mapSet acc.1 node.name (g node) node.name = g node by simp [mapSet]]
      constructor
      · exact hgn
      · split <;> omega
    · rw [show mapSet acc.1 node.name (g node) s = acc.1 s by simp [mapSet, hs]]
      have hps := hmap s
      constructor
      · exact hps.1
      · split <;> omega

theorem count_step_preserve (cm : (String → ℤ) × ℤ) (name : String) (w : ℤ) (hw : 0 ≤ w)
    (b : Bool) (h2 : 0 ≤ cm.2) (hmap : ∀ s, 0 ≤ cm.1 s ∧ cm.1 s ≤ cm.2) :
    0 ≤ (if (if b then mapSet cm.1 name (cm.1 name + w) else cm.1) name > cm.2
          then (if b then mapSet cm.1 name (cm.1 name + w) else cm.1) name else cm.2) ∧
    ∀ s, 0 ≤ (if b then mapSet cm.1 name (cm.1 name + w) else cm.1) s ∧
      (if b then mapSet cm.1 name (cm.1 name + w) else cm.1) s ≤
        (if (if b then mapSet cm.1 name (cm.1 name + w) else cm.1) name > cm.2
         then (if b then mapSet cm.1 name (cm.1 name + w) else cm.1) name else cm.2) := by
  have hname := hmap name
  cases b
  · simp only [Bool.false_eq_true, if_false]
    constructor
    · split <;> omega
    · intro s
      have hps := hmap s
      constructor
      · exact hps.1
      · split <;> omega
  · simp only [if_true]
    rw [show mapSet cm.1 name (cm.1 name + w) name = cm.1 name + w by simp [mapSet]]
    constructor
    · split <;> omega
    · intro s
      by_cases hs : s = name
      · subst hs
        rw [show mapSet cm.1 s (cm.1 s + w) s = cm.1 s + w by simp [mapSet]]
        constructor
        · omega
        · split <;> omega
      · rw [show mapSet cm.1 name (cm.1 name + w) s = cm.1 s by simp [mapSet, hs]]
        have hps := hmap s
        constructor
        · exact hps.1
        · split <;> omega

theorem incr_step_preserve (cm : (String → ℤ) × ℤ) (key : String) (w : ℤ) (hw : 0 ≤ w)
    (h2 : 0 ≤ cm.2) (hmap : ∀ s, 0 ≤ cm.1 s ∧ cm.1 s ≤ cm.2) :
    0 ≤ (if cm.1 key + w > cm.2 then cm.1 key + w else cm.2) ∧
    ∀ s, 0 ≤ mapSet cm.1 key (cm.1 key + w) s ∧
      mapSet cm.1 key (cm.1 key + w) s ≤
        (if cm.1 key + w > cm.2 then cm.1 key + w else cm.2) := by
  have hname := hmap key
  constructor
  · split <;> omega
  · intro s
    by_cases hs : s = key
    · subst hs
      rw [show mapSet cm.1 s (cm.1 s + w) s = cm.1 s + w by simp [mapSet]]
      constructor
      · omega
      · split <;> omega
    · rw [show mapSet cm.1 key (cm.1 key + w) s = cm.1 s by simp [mapSet, hs]]
      have hps := hmap s
      constructor
      · exact hps.1
      · split <;> omega

theorem interpod_step_preserve (cm : (String → ℤ) × ℤ × ℤ) (key : String) (w : ℤ)
    (hmn : cm.2.2 ≤ 0) (hmx : 0 ≤ cm.2.1)
    (hmap : ∀ s, cm.2.2 ≤ cm.1 s ∧ cm.1 s ≤ cm.2.1) :
    0 ≤ (if cm.1 key + w > cm.2.1 then cm.1 key + w else cm.2.1) ∧
    (if cm.1 key + w < cm.2.2 then cm.1 key + w else cm.2.2) ≤ 0 ∧
    ∀ s, (if cm.1 key + w < cm.2.2 then cm.1 key + w else cm.2.2) ≤
        mapSet cm.1 key (cm.1 key + w) s ∧
      mapSet cm.1 key (cm.1 key + w) s ≤
        (if cm.1 key + w > cm.2.1 then cm.1 key + w else cm.2.1) := by
  have hname := hmap key
  refine ⟨by split <;> omega, by split <;> omega, ?_⟩
  intro s
  by_cases hs : s = key
  · subst hs
    rw [show mapSet cm.1 s (cm.1 s + w) s = cm.1 s + w by simp [mapSet]]
    constructor
    · split <;> omega
    · split <;> omega
  · rw [show mapSet cm.1 key (cm.1 key + w) s = cm.1 s by simp [mapSet, hs]]
    have hps := hmap s
    constructor
    · split <;> omega
    · split <;> omega

theorem taint_priority_bounds (pod : Pod) (nodes : List Node) :
    ∀ hp ∈ ComputeTaintTolerationPriority pod nodes, 0 ≤ hp.score ∧ hp.score ≤ 10 := by
  intro hp hmem
  have hinv := fold_mapSet_invariant
    (fun n => countIntolerableTaintsPreferNoSchedule n.taints
      (getAllTolerationEffectPreferNoSchedule pod.tolerations))
    (fun n => by
      show 0 ≤ countIntolerableTaintsPreferNoSchedule n.taints
        (getAllTolerationEffectPreferNoSchedule pod.tolerations)
      rw [countIntolerable_eq_filter]
      exact Int.natCast_nonneg _) nodes
  rw [← taintCountsAndMax_eq] at hinv
  simp only [ComputeTaintTolerationPriority] at hmem
  obtain ⟨node, hnode, heq⟩ := List.mem_map.1 hmem
  rw [← heq]
  show 0 ≤ truncInt (if (taintCountsAndMax pod nodes).2 > 0 then _ else (10 : ℚ)) ∧
    truncInt (if (taintCountsAndMax pod nodes).2 > 0 then _ else (10 : ℚ)) ≤ 10
  by_cases hm : (taintCountsAndMax pod nodes).2 > 0
  · rw [if_pos hm]
    exact taint_score_bound _ _ (hinv.2 node.name).1 (hinv.2 node.name).2 hm
  · rw [if_neg hm, truncInt_ten]
    norm_num

theorem nodeAffinity_counts_invariant (pod : Pod) (nodes : List Node)
    (hw : ∀ t ∈ podSoftTerms pod, 0 ≤ t.weight) :
    0 ≤ (nodeAffinityCountsAndMax pod nodes).2 ∧
    ∀ s, 0 ≤ (nodeAffinityCountsAndMax pod nodes).1 s ∧
      (nodeAffinityCountsAndMax pod nodes).1 s ≤ (nodeAffinityCountsAndMax pod nodes).2 := by
  unfold nodeAffinityCountsAndMax
  cases hpa : pod.specAffinity with
  | none => exact ⟨le_refl 0, fun _ => ⟨le_refl 0, le_refl 0⟩⟩
  | some sa =>
    dsimp only
    cases hsn : sa.softNodeAffinity with
    | none => exact ⟨le_refl 0, fun _ => ⟨le_refl 0, le_refl 0⟩⟩
    | some terms =>
      dsimp only
      have hw2 : ∀ t ∈ terms, 0 ≤ t.weight := by
        intro t ht
        apply hw
        unfold podSoftTerms
        rw [hpa]
        dsimp only
        rw [hsn]
        exact ht
      refine foldl_preserve (fun acc : (String → ℤ) × ℤ =>
          0 ≤ acc.2 ∧ ∀ s, 0 ≤ acc.1 s ∧ acc.1 s ≤ acc.2) _ terms _
        ⟨le_refl 0, fun _ => ⟨le_refl 0, le_refl 0⟩⟩ ?_
      intro acc term hterm hP
      dsimp only
      split
      · exact hP
      · split
        · exact hP
        · refine foldl_preserve (fun acc : (String → ℤ) × ℤ =>
              0 ≤ acc.2 ∧ ∀ s, 0 ≤ acc.1 s ∧ acc.1 s ≤ acc.2) _ nodes acc hP ?_
          intro acc2 node _ hP2
          exact ⟨(count_step_preserve acc2 node.name term.weight (hw2 term hterm)
              (term.matchExpressions.all (nodeReqMatches node.labels)) hP2.1 hP2.2).1,
            (count_step_preserve acc2 node.name term.weight (hw2 term hterm)
              (term.matchExpressions.all (nodeReqMatches node.labels)) hP2.1 hP2.2).2⟩

theorem nodeAffinity_priority_bounds (pod : Pod) (nodes : List Node)
    (hw : ∀ t ∈ podSoftTerms pod, 0 ≤ t.weight) :
    ∀ hp ∈ CalculateNodeAffinityPriority pod nodes, 0 ≤ hp.score ∧ hp.score ≤ 10 := by
  intro hp hmem
  have hinv := nodeAffinity_counts_invariant pod nodes hw
  simp only [CalculateNodeAffinityPriority] at hmem
  obtain ⟨node, hnode, heq⟩ := List.mem_map.1 hmem
  rw [← heq]
  show 0 ≤ truncInt (if (nodeAffinityCountsAndMax pod nodes).2 > 0 then _ else (0 : ℚ)) ∧
    truncInt (if (nodeAffinityCountsAndMax pod nodes).2 > 0 then _ else (0 : ℚ)) ≤ 10
  by_cases hm : (nodeAffinityCountsAndMax pod nodes).2 > 0
  · rw [if_pos hm]
    exact ratio_score_bound 24 (by norm_num) _ _ (hinv.2 node.name).1 (hinv.2 node.name).2 hm
  · rw [if_neg hm, truncInt_zero]
    norm_num

theorem interPodCountsAndBounds_invariant (tc : List (String × ℤ)) (nodes : List Node) :
    0 ≤ (interPodCountsAndBounds tc nodes).2.1 ∧
    (interPodCountsAndBounds tc nodes).2.2 ≤ 0 ∧
    ∀ s, (interPodCountsAndBounds tc nodes).2.2 ≤ (interPodCountsAndBounds tc nodes).1 s ∧
      (interPodCountsAndBounds tc nodes).1 s ≤ (interPodCountsAndBounds tc nodes).2.1 := by
  unfold interPodCountsAndBounds
  refine foldl_preserve (fun acc : (String → ℤ) × ℤ × ℤ =>
      0 ≤ acc.2.1 ∧ acc.2.2 ≤ 0 ∧ ∀ s, acc.2.2 ≤ acc.1 s ∧ acc.1 s ≤ acc.2.1) _ tc _
    ⟨le_refl 0, le_refl 0, fun _ => ⟨le_refl 0, le_refl 0⟩⟩ ?_
  intro acc kv _ hP
  refine foldl_preserve (fun acc : (String → ℤ) × ℤ × ℤ =>
      0 ≤ acc.2.1 ∧ acc.2.2 ≤ 0 ∧ ∀ s, acc.2.2 ≤ acc.1 s ∧ acc.1 s ≤ acc.2.1) _ nodes acc hP ?_
  intro acc2 node _ hP2
  refine foldl_preserve (fun acc : (String → ℤ) × ℤ × ℤ =>
      0 ≤ acc.2.1 ∧ acc.2.2 ≤ 0 ∧ ∀ s, acc.2.2 ≤ acc.1 s ∧ acc.1 s ≤ acc.2.1) _
    node.labels acc2 hP2 ?_
  intro acc3 lkv _ hP3
  dsimp only
  split
  · exact interpod_step_preserve acc3 node.name kv.2 hP3.2.1 hP3.1 hP3.2.2
  · exact hP3

theorem interPod_priority_bounds (pod : Pod) (nodeNameToInfo : String → List Pod)
    (nodes : List Node) :
    ∀ hp ∈ CalculateInterPodAffinityPriority pod nodeNameToInfo nodes,
      0 ≤ hp.score ∧ hp.score ≤ 10 := by
  intro hp hmem
  have hinv := interPodCountsAndBounds_invariant
    (interPodTopologyCounts pod nodeNameToInfo nodes) nodes
  simp only [CalculateInterPodAffinityPriority] at hmem
  obtain ⟨node, hnode, heq⟩ := List.mem_map.1 hmem
  rw [← heq]
  show 0 ≤ truncInt (if (interPodCountsAndBounds
        (interPodTopologyCounts pod nodeNameToInfo nodes) nodes).2.1 -
      (interPodCountsAndBounds (interPodTopologyCounts pod nodeNameToInfo nodes) nodes).2.2 >
        0 then _ else (0 : ℚ)) ∧
    truncInt (if (interPodCountsAndBounds
        (interPodTopologyCounts pod nodeNameToInfo nodes) nodes).2.1 -
      (interPodCountsAndBounds (interPodTopologyCounts pod nodeNameToInfo nodes) nodes).2.2 >
        0 then _ else (0 : ℚ)) ≤ 10
  by_cases hm : (interPodCountsAndBounds
        (interPodTopologyCounts pod nodeNameToInfo nodes) nodes).2.1 -
      (interPodCountsAndBounds (interPodTopologyCounts pod nodeNameToInfo nodes) nodes).2.2 > 0
  · rw [if_pos hm]
    refine ratio_score_bound 53 (by norm_num) _ _ ?_ ?_ hm
    · have := (hinv.2.2 node.name).1
      omega
    · have := (hinv.2.2 node.name).2
      omega
  · rw [if_neg hm, truncInt_zero]
    norm_num

theorem serviceAffinity_counts_invariant (pod : Pod) (allPods : List Pod) :
    0 ≤ (serviceAffinityCountsAndMax pod allPods).2 ∧
    ∀ s, 0 ≤ (serviceAffinityCountsAndMax pod allPods).1 s ∧
      (serviceAffinityCountsAndMax pod allPods).1 s ≤
        (serviceAffinityCountsAndMax pod allPods).2 := by
  unfold serviceAffinityCountsAndMax
  refine foldl_preserve (fun acc : (String → ℤ) × ℤ =>
      0 ≤ acc.2 ∧ ∀ s, 0 ≤ acc.1 s ∧ acc.1 s ≤ acc.2) _ allPods _
    ⟨le_refl 0, fun _ => ⟨le_refl 0, le_refl 0⟩⟩ ?_
  intro acc onePod _ hP
  dsimp only
  split
  · exact hP
  · refine foldl_preserve (fun acc : (String → ℤ) × ℤ =>
        0 ≤ acc.2 ∧ ∀ s, 0 ≤ acc.1 s ∧ acc.1 s ≤ acc.2) _ onePod.labels acc hP ?_
    intro acc2 kv _ hP2
    split
    · exact ⟨(incr_step_preserve acc2 onePod.nodeName 1 (by norm_num) hP2.1 hP2.2).1,
             (incr_step_preserve acc2 onePod.nodeName 1 (by norm_num) hP2.1 hP2.2).2⟩
    · exact hP2

theorem serviceAffinity_priority_bounds (pod : Pod) (allPods : List Pod)
    (minions : List Node) :
    ∀ hp ∈ CalculateAffinityPriority pod allPods minions, 0 ≤ hp.score ∧ hp.score ≤ 10 := by
  intro hp hmem
  have hinv := serviceAffinity_counts_invariant pod allPods
  simp only [CalculateAffinityPriority] at hmem
  obtain ⟨minion, hminion, heq⟩ := List.mem_map.1 hmem
  rw [← heq]
  show 0 ≤ truncInt (if (serviceAffinityCountsAndMax pod allPods).2 > 0 then _ else (0 : ℚ)) ∧
    truncInt (if (serviceAffinityCountsAndMax pod allPods).2 > 0 then _ else (0 : ℚ)) ≤ 10
  by_cases hm : (serviceAffinityCountsAndMax pod allPods).2 > 0
  · rw [if_pos hm]
    exact ratio_score_bound 24 (by norm_num) _ _ (hinv.2 minion.name).1 (hinv.2 minion.name).2 hm
  · rw [if_neg hm, truncInt_zero]
    norm_num

/-- C6: every retained priority function returns scores in `[0, 10]`:
TaintTolerationPriority and the canonical ServiceAffinityPriority
unconditionally, NodeAffinityPriority under non-negative term weights
(Kubernetes weights are non-negative), and InterPodAffinityPriority for
every input — its signed topology totals are rescaled by
`(count − minCount) / (maxCount − minCount)` so anti-affinity still maps
into `[0, 10]`. -/
theorem c6_scores_in_range :
    (∀ (pod : Pod) (nodes : List Node),
      ∀ hp ∈ ComputeTaintTolerationPriority pod nodes, 0 ≤ hp.score ∧ hp.score ≤ 10) ∧
    (∀ (pod : Pod) (nodes : List Node), (∀ t ∈ podSoftTerms pod, 0 ≤ t.weight) →
      ∀ hp ∈ CalculateNodeAffinityPriority pod nodes, 0 ≤ hp.score ∧ hp.score ≤ 10) ∧
    (∀ (pod : Pod) (nodeNameToInfo : String → List Pod) (nodes : List Node),
      ∀ hp ∈ CalculateInterPodAffinityPriority pod nodeNameToInfo nodes,
        0 ≤ hp.score ∧ hp.score ≤ 10) ∧
    (∀ (pod : Pod) (allPods : List Pod) (minions : List Node),
      ∀ hp ∈ CalculateAffinityPriority pod allPods minions,
        0 ≤ hp.score ∧ hp.score ≤ 10) :=
  ⟨taint_priority_bounds, nodeAffinity_priority_bounds, interPod_priority_bounds,
   serviceAffinity_priority_bounds⟩

/-- Witness for C6 at concrete inputs from the scenarios. -/
theorem c6_witness :
    (0 ≤ (HostPriority.mk "n4" 1).score ∧ (HostPriority.mk "n4" 1).score ≤ 10) ∧
    (0 ≤ (HostPriority.mk "m1" 0).score ∧ (HostPriority.mk "m1" 0).score ≤ 10) ∧
    (0 ≤ (HostPriority.mk "m1" 10).score ∧ (HostPriority.mk "m1" 10).score ≤ 10) :=
  ⟨c6_scores_in_range.1 noTolerationPod c4Nodes ⟨"n4", 1⟩
      (of_decide_eq_true (by with_unfolding_all rfl)),
   c6_scores_in_range.2.1 noTolerationPod c5Minions
      (fun t ht => absurd ht (List.not_mem_nil t)) ⟨"m1", 0⟩
      (of_decide_eq_true (by with_unfolding_all rfl)),
   c6_scores_in_range.2.2.1 s4CandidatePod s4NodeNameToInfo s4Nodes ⟨"m1", 10⟩
      (of_decide_eq_true (by with_unfolding_all rfl))⟩

/-!
## C8 — taint CLI parsing
-/

theorem splitChar_no_sep (sep : Char) : ∀ (xs : List Char), sep ∉ xs →
    splitChar sep xs = [xs] := by
  intro xs
  induction xs with
  | nil => intro _; rfl
  | cons c rest ih =>
    intro h
    simp only [List.mem_cons, not_or] at h
    unfold splitChar
    rw [if_neg (fun hc => h.1 hc.symm), ih h.2]

theorem splitChar_append (sep : Char) : ∀ (xs ys : List Char), sep ∉ xs →
    splitChar sep (xs ++ sep :: ys) = xs :: splitChar sep ys := by
  intro xs
  induction xs with
  | nil =>
    intro ys _
    show splitChar sep (sep :: ys) = [] :: splitChar sep ys
    conv_lhs => unfold splitChar
    rw [if_pos rfl]
  | cons c rest ih =>
    intro ys h
    simp only [List.mem_cons, not_or] at h
    show splitChar sep (c :: (rest ++ sep :: ys)) = (c :: rest) :: splitChar sep ys
    conv_lhs => unfold splitChar
    rw [if_neg (fun hc => h.1 hc.symm), ih ys h.2]

theorem char_contains_iff (c : Char) (xs : List Char) : xs.contains c = true ↔ c ∈ xs := by
  simp [List.contains]

/-- C8 (amended): for validator-accepted `KEY` and non-empty `VALUE` free of
`=` and `:`, the single argument `KEY=VALUE:EFFECT` parses to the
corresponding taint exactly when the effect is `NoSchedule` or
`PreferNoSchedule`, and errors for every other effect (including the
documented `NoExecute`, `NoScheduleNoAdmit`, `NoScheduleNoAdmitNoExecute` —
see the counterexample); `KEY-` yields `KEY` in the removal list. -/
theorem c8_parse_taints :
    ∀ (isQualifiedName isValidLabelValue : List Char → Bool) (key value eff : List Char),
      '=' ∉ key → ':' ∉ key → '=' ∉ value → ':' ∉ value → '=' ∉ eff → ':' ∉ eff →
      value ≠ [] → isQualifiedName key = true → isValidLabelValue value = true →
      ((String.mk eff = "NoSchedule" ∨ String.mk eff = "PreferNoSchedule") →
        parseTaints isQualifiedName isValidLabelValue
            [key ++ '=' :: (value ++ ':' :: eff)] =
          some ([⟨String.mk key, String.mk value, String.mk eff⟩], [])) ∧
      (String.mk eff ≠ "NoSchedule" → String.mk eff ≠ "PreferNoSchedule" →
        parseTaints isQualifiedName isValidLabelValue
            [key ++ '=' :: (value ++ ':' :: eff)] = none) ∧
      parseTaints isQualifiedName isValidLabelValue [key ++ ['-']] =
        some ([], [String.mk key]) := by
  intro iqn ivv key value eff hk1 hk2 hv1 hv2 he1 he2 hvne hq hval
  have hnem : '=' ∉ value ++ ':' :: eff := by
    intro h
    rcases List.mem_append.1 h with h | h
    · exact hv1 h
    · rcases List.mem_cons.1 h with h | h
      · exact absurd h (by decide)
      · exact he1 h
  have hc1 : (key ++ '=' :: (value ++ ':' :: eff)).contains '=' = true :=
    (char_contains_iff _ _).2 (by simp)
  have hc2 : (key ++ '=' :: (value ++ ':' :: eff)).contains ':' = true :=
    (char_contains_iff _ _).2 (by simp)
  have hsplit1 : splitChar '=' (key ++ '=' :: (value ++ ':' :: eff)) =
      [key, value ++ ':' :: eff] := by
    rw [splitChar_append '=' key _ hk1, splitChar_no_sep '=' _ hnem]
  have hsplit2 : splitChar ':' (value ++ ':' :: eff) = [value, eff] := by
    rw [splitChar_append ':' value _ hv2, splitChar_no_sep ':' _ he2]
  have hlen : ¬((value ++ ':' :: eff).length = 0 ∨ ¬ iqn key = true) := by
    intro h
    rcases h with h | h
    · rw [List.length_append] at h
      simp at h
    · exact h hq
  have hvalcond : ¬(¬ ivv value = true) := fun h => h hval
  refine ⟨?_, ?_, ?_⟩
  · intro hcase
    simp only [parseTaints]
    rw [if_pos ⟨hc1, hc2⟩, hsplit1]
    dsimp only
    rw [if_neg hlen, hsplit2]
    dsimp only
    rw [if_neg hvalcond]
    rw [if_pos ?hcond]
    case hcond =>
      rcases hcase with h | h
      · exact Or.inl (by simp [h, TaintEffectNoSchedule])
      · exact Or.inr (by simp [h, TaintEffectPreferNoSchedule])
  · intro hne1 hne2
    simp only [parseTaints]
    rw [if_pos ⟨hc1, hc2⟩, hsplit1]
    dsimp only
    rw [if_neg hlen, hsplit2]
    dsimp only
    rw [if_neg hvalcond]
    rw [if_neg ?hcondn]
    case hcondn =>
      intro h
      rcases h with h | h
      · exact hne1 (by simpa [TaintEffectNoSchedule] using h)
      · exact hne2 (by simpa [TaintEffectPreferNoSchedule] using h)
  · have hcna : ¬((key ++ ['-']).contains '=' = true ∧ (key ++ ['-']).contains ':' = true) := by
      intro h
      have := (char_contains_iff _ _).1 h.1
      rcases List.mem_append.1 this with h2 | h2
      · exact hk1 h2
      · exact absurd h2 (by decide)
    simp only [parseTaints]
    rw [if_neg hcna, if_pos (by rw [List.getLast?_concat]), List.dropLast_concat]

/-- C8 counterexample: `a=b:NoExecute` — effect `NoExecute` is in the
documented set, the key and value pass validation — is rejected by
`parseTaints`, while the same argument with effect `NoSchedule` parses. -/
theorem c8_counterexample :
    parseTaints (fun _ => true) (fun _ => true) ["a=b:NoExecute".data] = none ∧
    parseTaints (fun _ => true) (fun _ => true) ["a=b:NoSchedule".data] =
      some ([⟨"a", "b", "NoSchedule"⟩], []) :=
  of_decide_eq_true (by with_unfolding_all rfl)

/-- Witness for C8 at a concrete taint specification. -/
theorem c8_witness :
    parseTaints (fun _ => true) (fun _ => true)
      ["dedicated".data ++ '=' :: ("user".data ++ ':' :: "PreferNoSchedule".data)] =
      some ([⟨String.mk "dedicated".data, String.mk "user".data,
        String.mk "PreferNoSchedule".data⟩], []) :=
  (c8_parse_taints (fun _ => true) (fun _ => true) "dedicated".data "user".data
      "PreferNoSchedule".data
      (of_decide_eq_true (by with_unfolding_all rfl))
      (of_decide_eq_true (by with_unfolding_all rfl))
      (of_decide_eq_true (by with_unfolding_all rfl))
      (of_decide_eq_true (by with_unfolding_all rfl))
      (of_decide_eq_true (by with_unfolding_all rfl))
      (of_decide_eq_true (by with_unfolding_all rfl))
      (of_decide_eq_true (by with_unfolding_all rfl))
      rfl rfl).1
    (Or.inr (by with_unfolding_all rfl))

/-!
## C10 — frame property of the taint editor
-/

theorem reorg_fold_mem_mono :
    ∀ (olds : List Taint) (acc : List Taint) (t : Taint), t ∈ acc →
      t ∈ olds.foldl (fun newTaints oldTaint =>
        if newTaints.any (fun taint => taint.key == oldTaint.key) then newTaints
        else newTaints ++ [oldTaint]) acc := by
  intro olds
  induction olds with
  | nil => intro acc t h; exact h
  | cons o os ih =>
    intro acc t h
    rw [List.foldl_cons]
    apply ih
    split
    · exact h
    · exact List.mem_append_left _ h

theorem reorg_base_mem :
    ∀ (olds : List Taint) (acc : List Taint) (t : Taint),
      t ∈ olds → (∀ t2 ∈ acc, t2.key ≠ t.key) → (olds.map Taint.key).Nodup →
      t ∈ olds.foldl (fun newTaints oldTaint =>
        if newTaints.any (fun taint => taint.key == oldTaint.key) then newTaints
        else newTaints ++ [oldTaint]) acc := by
  intro olds
  induction olds with
  | nil => intro acc t h _ _; cases h
  | cons o os ih =>
    intro acc t ht hacc hnd
    simp only [List.map_cons, List.nodup_cons] at hnd
    rw [List.foldl_cons]
    rcases List.mem_cons.1 ht with rfl | ht2
    · have hnoany : ¬(acc.any (fun taint => taint.key == t.key) = true) := by
        intro h
        obtain ⟨t2, ht2, hbeq⟩ := List.any_eq_true.1 h
        exact hacc t2 ht2 (by simpa using hbeq)
      rw [if_neg hnoany]
      exact reorg_fold_mem_mono os _ t (List.mem_append_right _ (List.mem_singleton.2 rfl))
    · refine ih _ t ht2 ?_ hnd.2
      intro t2 h2
      by_cases hany : acc.any (fun taint => taint.key == o.key) = true
      · rw [if_pos hany] at h2
        exact hacc t2 h2
      · rw [if_neg hany] at h2
        rcases List.mem_append.1 h2 with h2 | h2
        · exact hacc t2 h2
        · rw [List.mem_singleton.1 h2]
          intro hkeq
          exact hnd.1 (by rw [hkeq]; exact List.mem_map_of_mem Taint.key ht2)

theorem remove_fold_true :
    ∀ (remove : List String) (acc : List Taint × Bool), acc.2 = true →
      (remove.foldl (fun (acc : List Taint × Bool) taintToRemove =>
        match deleteTaintByKey acc.1 taintToRemove with
        | some l => (l, acc.2)
        | none => ([], true)) acc).2 = true := by
  intro remove
  induction remove with
  | nil => intro acc h; exact h
  | cons r rs ih =>
    intro acc h
    rw [List.foldl_cons]
    apply ih
    cases hdel : deleteTaintByKey acc.1 r with
    | some l => exact h
    | none => rfl

theorem remove_fold_mem :
    ∀ (remove : List String) (acc : List Taint × Bool) (t : Taint),
      t ∈ acc.1 → t.key ∉ remove →
      (remove.foldl (fun (acc : List Taint × Bool) taintToRemove =>
        match deleteTaintByKey acc.1 taintToRemove with
        | some l => (l, acc.2)
        | none => ([], true)) acc).2 = false →
      t ∈ (remove.foldl (fun (acc : List Taint × Bool) taintToRemove =>
        match deleteTaintByKey acc.1 taintToRemove with
        | some l => (l, acc.2)
        | none => ([], true)) acc).1 := by
  intro remove
  induction remove with
  | nil => intro acc t h _ _; exact h
  | cons r rs ih =>
    intro acc t ht hnr hfin
    simp only [List.mem_cons, not_or] at hnr
    rw [List.foldl_cons] at hfin ⊢
    cases hdel : deleteTaintByKey acc.1 r with
    | none =>
      exfalso
      rw [hdel] at hfin
      dsimp only at hfin
      rw [remove_fold_true rs ([], true) rfl] at hfin
      simp at hfin
    | some l =>
      rw [hdel] at hfin
      dsimp only at hfin ⊢
      refine ih (l, acc.2) t ?_ hnr.2 hfin
      have hl : l = acc.1.filter (fun taint => !(taint.key == r)) := by
        unfold deleteTaintByKey at hdel
        split at hdel
        · exact (Option.some.inj hdel).symm
        · exact Option.noConfusion hdel
      rw [hl]
      exact List.mem_filter.2 ⟨ht, by simp [hnr.1]⟩

/-- C10 (amended): when the node's pre-existing (annotation) taints have
pairwise-distinct keys and `reorganizeTaints` succeeds, every pre-existing
taint whose key matches no added taint and is not in the removal list
appears unchanged in the result.  (Without distinct keys the claim fails —
see the counterexample.) -/
theorem c10_reorganize_taints_frame :
    ∀ (node : Node) (overwrite : Bool) (taints : List Taint) (remove : List String)
      (result : List Taint),
      (node.annotationTaints.map Taint.key).Nodup →
      reorganizeTaints node overwrite taints remove = some result →
      ∀ t ∈ node.annotationTaints,
        (∀ t2 ∈ taints, t2.key ≠ t.key) → t.key ∉ remove → t ∈ result := by
  intro node overwrite taints remove result hnd hre t ht htk hrk
  unfold reorganizeTaints at hre
  by_cases hov : ¬ overwrite = true ∧ ¬ validateNoTaintOverwrites node taints = true
  · rw [if_pos hov] at hre
    exact Option.noConfusion hre
  · rw [if_neg hov] at hre
    dsimp only at hre
    by_cases hfin : (remove.foldl (fun (acc : List Taint × Bool) taintToRemove =>
        match deleteTaintByKey acc.1 taintToRemove with
        | some l => (l, acc.2)
        | none => ([], true))
        (node.annotationTaints.foldl (fun newTaints oldTaint =>
          if newTaints.any (fun taint => taint.key == oldTaint.key) then newTaints
          else newTaints ++ [oldTaint]) taints, false)).2 = true
    · rw [if_pos hfin] at hre
      exact Option.noConfusion hre
    · rw [if_neg hfin] at hre
      have hres : result = (remove.foldl (fun (acc : List Taint × Bool) taintToRemove =>
          match deleteTaintByKey acc.1 taintToRemove with
          | some l => (l, acc.2)
          | none => ([], true))
          (node.annotationTaints.foldl (fun newTaints oldTaint =>
            if newTaints.any (fun taint => taint.key == oldTaint.key) then newTaints
            else newTaints ++ [oldTaint]) taints, false)).1 := (Option.some.inj hre).symm
      rw [hres]
      refine remove_fold_mem remove _ t ?_ hrk (by simpa using hfin)
      exact reorg_base_mem node.annotationTaints taints t ht htk hnd

/-- C10 counterexample: a node whose annotation carries two taints with the
same key `k` — with nothing added and nothing removed — loses the second
one: the rebuild loop deduplicates by key. -/
theorem c10_counterexample :
    reorganizeTaints c10DupNode false [] [] = some [⟨"k", "v1", "NoSchedule"⟩] ∧
    (⟨"k", "v2", "PreferNoSchedule"⟩ : Taint) ∈ c10DupNode.annotationTaints ∧
    (⟨"k", "v2", "PreferNoSchedule"⟩ : Taint) ∉ [(⟨"k", "v1", "NoSchedule"⟩ : Taint)] :=
  of_decide_eq_true (by with_unfolding_all rfl)

/-- Witness for C10: the pre-existing taint on key `a` survives adding a
taint on key `b` and removing key `c`. -/
theorem c10_witness :
    (⟨"a", "1", "NoSchedule"⟩ : Taint) ∈
      [(⟨"b", "3", "NoSchedule"⟩ : Taint), ⟨"a", "1", "NoSchedule"⟩] :=
  c10_reorganize_taints_frame c10Node false [⟨"b", "3", "NoSchedule"⟩] ["c"]
    [⟨"b", "3", "NoSchedule"⟩, ⟨"a", "1", "NoSchedule"⟩]
    (of_decide_eq_true (by with_unfolding_all rfl))
    (by with_unfolding_all rfl)
    ⟨"a", "1", "NoSchedule"⟩
    (of_decide_eq_true (by with_unfolding_all rfl))
    (of_decide_eq_true (by with_unfolding_all rfl))
    (of_decide_eq_true (by with_unfolding_all rfl))
